import Mathlib

/-!
# Tag reconciliation, WAF rule mutation and LF-Tag updates

A shallow embedding of
* `internal/service/acmpca/tags_gen.go` (`Tags`, `KeyValueTags`, `UpdateTags`),
* `internal/service/inspector/tags.go` (`updateTags`),
* `internal/service/waf/rule.go` (`resourceRuleCreate`, `updateRuleResource`,
  `resourceRuleDelete`),
* `internal/service/lakeformation/lf_tag.go` (`ReadLFTagID`, `resourceLFTagCreate`,
  `resourceLFTagUpdate`),
together with the parts of `internal/tags` they call.

A Go `map[string]V` is a list of key/value pairs with pairwise distinct keys
(`KeyValueTags.WF`); the order of the list is the order in which `range`
visits the map.  A remote connection is a record of response functions, and
every operation returns the remote calls it issued, in order, next to its
result.  Wall-clock time is not modelled: a retry loop with a deadline takes
the number of attempts that return before the deadline as a parameter.
-/

namespace TfAws

/-! ## Errors -/

/-- An error of a remote operation: an AWS SDK error with its code and
message, or an error built around one by `fmt.Errorf(text + "%w", wrapped)`. -/
inductive Err where
  | aws (code : String) (message : String)
  | errorf (text : String) (wrapped : Err)
  deriving DecidableEq, Repr

namespace Err

/-- The `Unwrap` chain: `errors.Unwrap` of a `fmt.Errorf("...%w")` error is
the wrapped error. -/
def Unwrap : Err → Option Err
  | errorf _ wrapped => some wrapped
  | aws _ _ => none

/-- The text of `err.Error()`. -/
def Error : Err → String
  | aws code message => code ++ ": " ++ message
  | errorf text wrapped => text ++ wrapped.Error

end Err

/-! ## `internal/tags`: the logical tag set -/

/-- The wire record `*acmpca.Tag` / `*inspector.Tag`: two `*string` fields. -/
structure Tag where
  Key : Option String
  Value : Option String
  deriving DecidableEq, Repr

/-- The function `aws.StringValue`: the pointed-to string, `""` for `nil`. -/
def StringValue (p : Option String) : String := p.getD ""

/-- The type `tftags.KeyValueTags`, a map from key to an optional value. -/
abbrev KeyValueTags := List (String × Option String)

/-- The reserved key prefix of system tags (`AwsTagKeyPrefix` of
`internal/tags`). -/
def AwsTagKeyPrefix : String := "aws:"

/-- The Go `strings.HasPrefix s p`. -/
def HasPrefix (s p : String) : Bool := p.data.isPrefixOf s.data

namespace KeyValueTags

/-- Keys of a Go map are pairwise distinct. -/
def WF (tags : KeyValueTags) : Prop := (tags.map Prod.fst).Nodup

instance (tags : KeyValueTags) : Decidable tags.WF := by
  unfold WF; infer_instance

/-- The map read `v, ok := tags[k]`. -/
def get (tags : KeyValueTags) (k : String) : Option (Option String) :=
  tags.lookup k

/-- The map write `tags[k] = v`: an existing key keeps its place and takes the
new value, a new key is added. -/
def set : KeyValueTags → String → Option String → KeyValueTags
  | [], k, v => [(k, v)]
  | (k', v') :: rest, k, v =>
      if k' = k then (k, v) :: rest else (k', v') :: set rest k v

/-- Modelled from the spec: `KeyValueTags.Removed` of `internal/tags`, which
is not among the sources: the entries of the receiver whose key is absent
from `newTags`. -/
def Removed (tags newTags : KeyValueTags) : KeyValueTags :=
  tags.filter (fun p => (newTags.get p.1).isNone)

/-- Modelled from the spec: `KeyValueTags.Updated` of `internal/tags`, which
is not among the sources: the entries of `newTags` whose key is absent from
the receiver, or present there with a different value; the result carries the
new values. -/
def Updated (tags newTags : KeyValueTags) : KeyValueTags :=
  newTags.filter (fun p => decide (tags.get p.1 ≠ some p.2))

/-- Modelled from the spec: `KeyValueTags.IgnoreAWS` of `internal/tags`, which
is not among the sources: the filter that drops the reserved-prefix system
tags, the keys starting with `AwsTagKeyPrefix`. -/
def IgnoreAWS (tags : KeyValueTags) : KeyValueTags :=
  tags.filter (fun p => !(HasPrefix p.1 AwsTagKeyPrefix))

/-- Modelled from the spec: `KeyValueTags.Map` of `internal/tags`, which is
not among the sources: the projection to a plain `map[string]string`.  The
spec leaves the image of a value-less entry open; a Go `map[string]string`
has to hold some string there, and `internal/tags` holds the empty string. -/
def Map (tags : KeyValueTags) : List (String × String) :=
  tags.map (fun p => (p.1, p.2.getD ""))

end KeyValueTags

/-! ## `internal/service/acmpca/tags_gen.go` -/

namespace acmpca

/-- The function `Tags`: one record per entry of `tags.Map()`, key and value
both non-nil pointers. -/
def Tags (tags : KeyValueTags) : List Tag :=
  tags.Map.map (fun kv => { Key := some kv.1, Value := some kv.2 })

/-- The function `KeyValueTags`: the loop `m[aws.StringValue(tag.Key)] =
tag.Value` over the wire list, starting from the empty map.  `tftags.New` of a
`map[string]*string` keeps every key with its optional value. -/
def KeyValueTags (tags : List Tag) : TfAws.KeyValueTags :=
  tags.foldl (fun m tag => m.set (StringValue tag.Key) tag.Value) []

/-- The request `acmpca.UntagCertificateAuthorityInput`. -/
structure UntagCertificateAuthorityInput where
  CertificateAuthorityArn : Option String
  Tags : List Tag
  deriving DecidableEq, Repr

/-- The request `acmpca.TagCertificateAuthorityInput`. -/
structure TagCertificateAuthorityInput where
  CertificateAuthorityArn : Option String
  Tags : List Tag
  deriving DecidableEq, Repr

/-- A remote call issued through the connection. -/
inductive Call where
  | UntagCertificateAuthority (input : UntagCertificateAuthorityInput)
  | TagCertificateAuthority (input : TagCertificateAuthorityInput)
  deriving DecidableEq, Repr

/-- The connection `acmpcaiface.ACMPCAAPI`: the error (or `none` for success)
each of the two calls answers with. -/
structure ACMPCAAPI where
  UntagCertificateAuthorityWithContext : UntagCertificateAuthorityInput → Option Err
  TagCertificateAuthorityWithContext : TagCertificateAuthorityInput → Option Err

/-- What the connection answers to a call. -/
def ACMPCAAPI.respond (conn : ACMPCAAPI) : Call → Option Err
  | Call.UntagCertificateAuthority input => conn.UntagCertificateAuthorityWithContext input
  | Call.TagCertificateAuthority input => conn.TagCertificateAuthorityWithContext input

/-- An example connection that, like the SDK client, refuses a request whose
tag list is empty and accepts every other request. -/
def exampleValidating : ACMPCAAPI :=
  { UntagCertificateAuthorityWithContext := fun input =>
      if input.Tags = [] then some (Err.aws "InvalidParameter" "1 validation error(s) found.")
      else none,
    TagCertificateAuthorityWithContext := fun input =>
      if input.Tags = [] then some (Err.aws "InvalidParameter" "1 validation error(s) found.")
      else none }

/-- The second half of `UpdateTags` (the `updatedTags` block and the final
`return nil`), run after the calls `issued`. -/
def UpdateTags.tagStep (conn : ACMPCAAPI) (identifier : String)
    (oldTags newTags : TfAws.KeyValueTags) (issued : List Call) : List Call × Option Err :=
  let updatedTags := oldTags.Updated newTags
  if updatedTags.length > 0 then
    let input : TagCertificateAuthorityInput :=
      { CertificateAuthorityArn := some identifier, Tags := Tags updatedTags.IgnoreAWS }
    match conn.TagCertificateAuthorityWithContext input with
    | some err =>
        (issued ++ [Call.TagCertificateAuthority input],
          some (Err.errorf ("tagging resource (" ++ identifier ++ "): ") err))
    | none => (issued ++ [Call.TagCertificateAuthority input], none)
  else (issued, none)

/-- The function `UpdateTags`, on tag sets already built by `tftags.New`: the
remote calls issued, in order, and the returned error (`none` is `nil`). -/
def UpdateTags (conn : ACMPCAAPI) (identifier : String)
    (oldTags newTags : TfAws.KeyValueTags) : List Call × Option Err :=
  let removedTags := oldTags.Removed newTags
  if removedTags.length > 0 then
    let input : UntagCertificateAuthorityInput :=
      { CertificateAuthorityArn := some identifier, Tags := Tags removedTags.IgnoreAWS }
    match conn.UntagCertificateAuthorityWithContext input with
    | some err =>
        ([Call.UntagCertificateAuthority input],
          some (Err.errorf ("untagging resource (" ++ identifier ++ "): ") err))
    | none =>
        UpdateTags.tagStep conn identifier oldTags newTags [Call.UntagCertificateAuthority input]
  else UpdateTags.tagStep conn identifier oldTags newTags []

end acmpca

/-! ## `internal/service/inspector/tags.go` -/

namespace inspector

/-- Modelled from the spec: `Tags` of the inspector package (its generated
`tags_gen.go` is not among the sources), the encoder of the tag codec: one
record per key, in the order of the underlying mapping. -/
def Tags (tags : KeyValueTags) : List Tag :=
  tags.Map.map (fun kv => { Key := some kv.1, Value := some kv.2 })

/-- The request `inspector.SetTagsForResourceInput`; `Tags` is `none` when the
field is left unset. -/
structure SetTagsForResourceInput where
  ResourceArn : Option String
  Tags : Option (List Tag)
  deriving DecidableEq, Repr

/-- The connection `*inspector.Inspector`: the error (or `none` for success)
that `SetTagsForResourceWithContext` answers with. -/
structure Inspector where
  SetTagsForResourceWithContext : SetTagsForResourceInput → Option Err

/-- The function `updateTags`, on tag sets already built by `tftags.New`: the
remote calls issued, in order, and the returned error (`none` is `nil`). -/
def updateTags (conn : Inspector) (identifier : String)
    (oldTags newTags : KeyValueTags) : List SetTagsForResourceInput × Option Err :=
  if newTags.length > 0 then
    let input : SetTagsForResourceInput :=
      { ResourceArn := some identifier, Tags := some (Tags newTags.IgnoreAWS) }
    match conn.SetTagsForResourceWithContext input with
    | some err => ([input], some (Err.errorf ("error tagging resource (" ++ identifier ++ "): ") err))
    | none => ([input], none)
  else if oldTags.length > 0 then
    let input : SetTagsForResourceInput := { ResourceArn := some identifier, Tags := none }
    match conn.SetTagsForResourceWithContext input with
    | some err => ([input], some (Err.errorf ("error untagging resource (" ++ identifier ++ "): ") err))
    | none => ([input], none)
  else ([], none)

end inspector

/-! ## `internal/service/waf/rule.go` -/

namespace waf

/-- The AWS SDK constant `waf.ErrCodeReferencedItemException`. -/
def ErrCodeReferencedItemException : String := "WAFReferencedItemException"

/-- The AWS SDK constant `waf.ErrCodeNonexistentItemException`. -/
def ErrCodeNonexistentItemException : String := "WAFNonexistentItemException"

/-- The AWS SDK constant `waf.ErrCodeStaleDataException`. -/
def ErrCodeStaleDataException : String := "WAFStaleDataException"

/-- The function `tfawserr.ErrCodeEquals` on an error of a remote operation:
the AWS error found along the `Unwrap` chain carries the given code. -/
def ErrCodeEquals : Err → String → Bool
  | Err.aws c _, code => c == code
  | Err.errorf _ wrapped, code => ErrCodeEquals wrapped code

/-- A Go `error` as `resource.RetryContext` returns it and as the variable
`err` of `resourceRuleDelete` holds it: an error of a remote operation, or the
`*resource.TimeoutError` of the plugin SDK with its `LastError` field. -/
inductive WaitErr where
  | result (err : Err)
  | timeout (lastError : Option Err)
  deriving DecidableEq, Repr

/-- The function `tfawserr.ErrCodeEquals` on a `WaitErr`; a
`*resource.TimeoutError` unwraps to its `LastError`. -/
def WaitErr.ErrCodeEquals : WaitErr → String → Bool
  | WaitErr.result err, code => waf.ErrCodeEquals err code
  | WaitErr.timeout (some err), code => waf.ErrCodeEquals err code
  | WaitErr.timeout none, _ => false

/-- The text of `err.Error()`. -/
def WaitErr.Error : WaitErr → String
  | WaitErr.result err => err.Error
  | WaitErr.timeout none => "timeout while waiting for state to become 'success' (timeout: 5m0s)"
  | WaitErr.timeout (some err) =>
      "timeout while waiting for state to become 'success' (timeout: 5m0s): " ++ err.Error

/-- The function `tfresource.TimedOut` (`internal/tfresource`, not among the
sources).  Its documentation: "TimedOut returns true if the error represents a
wait timed out condition", that is when `err` is of type
`*resource.TimeoutError` and `TimeoutError.LastError` is nil. -/
def TimedOut : Option WaitErr → Bool
  | some (WaitErr.timeout none) => true
  | _ => false

/-- One element of the `predicates` set of the resource. -/
structure Predicate where
  negated : Bool
  data_id : String
  type : String
  deriving DecidableEq, Repr

/-- The request `waf.DeleteRuleInput`. -/
structure DeleteRuleInput where
  ChangeToken : Option String
  RuleId : Option String
  deriving DecidableEq, Repr

/-- The request `waf.UpdateRuleInput`.  `Updates` is
`DiffRulePredicates(oldP, newP)` (`helpers.go`, not among the sources), kept as
its two arguments. -/
structure UpdateRuleInput where
  ChangeToken : Option String
  RuleId : Option String
  Updates : List Predicate × List Predicate
  deriving DecidableEq, Repr

/-- The request `waf.CreateRuleInput`; `Tags` is `none` when the field is
left unset. -/
structure CreateRuleInput where
  ChangeToken : Option String
  MetricName : Option String
  Name : Option String
  Tags : Option (List Tag)
  deriving DecidableEq, Repr

/-- A remote call issued through the connection. -/
inductive Call where
  | GetChangeToken
  | DeleteRule (req : DeleteRuleInput)
  | UpdateRule (req : UpdateRuleInput)
  | CreateRule (req : CreateRuleInput)
  deriving DecidableEq, Repr

/-- The change token a mutating call carries in its request; `none` for
`GetChangeToken`, which mutates nothing and carries none. -/
def Call.ChangeToken : Call → Option (Option String)
  | Call.GetChangeToken => none
  | Call.DeleteRule req => some req.ChangeToken
  | Call.UpdateRule req => some req.ChangeToken
  | Call.CreateRule req => some req.ChangeToken

/-- The connection `*waf.WAF`: what each call answers, given the calls issued
before it (the remote service is stateful).  `CreateRuleWithContext` answers
with the `RuleId` of the rule created. -/
structure WAF where
  GetChangeTokenWithContext : List Call → Except Err (Option String)
  DeleteRuleWithContext : List Call → DeleteRuleInput → Except Err Unit
  UpdateRuleWithContext : List Call → UpdateRuleInput → Except Err Unit
  CreateRuleWithContext : List Call → CreateRuleInput → Except Err (Option String)

/-- A computation against the remote service: from the calls issued so far to
a result and the calls issued after it. -/
abbrev Action (α : Type) := List Call → α × List Call

/-- The retryer `*WafRetryer` that `NewRetryer(conn)` returns
(`token_handlers.go`, not among the sources), taken as a parameter: its method
`RetryWithToken` runs an attempt function that receives a change token, and
returns the result of an attempt or the error of a remote operation. -/
structure Retryer where
  RetryWithToken : {α : Type} → (Option String → Action (Except Err α)) → Action (Except Err α)

/-- Modelled from the spec: `NewRetryer` and `RetryWithToken` of
`token_handlers.go`, which is not among the sources.  A token is fetched
before every attempt; an attempt that fails with the stale-token error is
repeated with a fresh token, at most `retries` more times; every other outcome
is returned at once. -/
def RetryWithToken (conn : WAF) {α : Type} (f : Option String → Action (Except Err α)) :
    Nat → Action (Except Err α)
  | 0, h =>
      match conn.GetChangeTokenWithContext h with
      | Except.error err => (Except.error err, h ++ [Call.GetChangeToken])
      | Except.ok token => f token (h ++ [Call.GetChangeToken])
  | retries + 1, h =>
      match conn.GetChangeTokenWithContext h with
      | Except.error err => (Except.error err, h ++ [Call.GetChangeToken])
      | Except.ok token =>
          match f token (h ++ [Call.GetChangeToken]) with
          | (Except.error err, h') =>
              if ErrCodeEquals err ErrCodeStaleDataException then RetryWithToken conn f retries h'
              else (Except.error err, h')
          | (Except.ok out, h') => (Except.ok out, h')

/-- Modelled from the spec: the retryer built by `NewRetryer(conn)`, with the
bound on stale-token retries as a parameter. -/
def NewRetryer (retries : Nat) (conn : WAF) : Retryer :=
  { RetryWithToken := fun f => RetryWithToken conn f retries }

/-- The type `resource.RetryError` of the plugin SDK. -/
structure RetryError where
  Err : Err
  Retryable : Bool
  deriving DecidableEq, Repr

/-- The function `resource.RetryableError`. -/
def RetryableError (err : Err) : RetryError := { Err := err, Retryable := true }

/-- The function `resource.NonRetryableError`. -/
def NonRetryableError (err : Err) : RetryError := { Err := err, Retryable := false }

/-- The function `resource.RetryContext(ctx, timeout, f)` of the plugin SDK
(a dependency, not among the sources), with wall-clock time abstracted:
`rounds` is the number of calls of `f` that return before the wait gives up.
The first call of `f` is always started.  `f` is called again as long as it
answers with a retryable error and the deadline has not passed; success and a
non-retryable error end the loop at once.  `resultErr` is the local variable
of that name, set by every call of `f` that returns to the error of that
call.  At the deadline the wait ends with a `TimeoutError` whose `LastError`
is nil, and `RetryContext` returns it only when `resultErr` is nil, "because
the wait timed out and resultErr was never set"; otherwise "resultErr takes
precedence over waitErr if both are set because it is more likely to be
useful".  When no call has returned (`rounds = 0`), the first call of `f` is
still running as the wait gives up: its remote calls are issued and its result
is never read.  When a call has returned, the wait is taken to give up between
two calls. -/
def RetryContext {σ : Type} (f : σ → Option RetryError × σ) :
    Nat → Option Err → σ → Option WaitErr × σ
  | 0, some err, s => (some (WaitErr.result err), s)
  | 0, none, s => (some (WaitErr.timeout none), (f s).2)
  | rounds + 1, _, s =>
      match f s with
      | (none, s') => (none, s')
      | (some rerr, s') =>
          if rerr.Retryable then RetryContext f rounds (some rerr.Err) s'
          else (some (WaitErr.result rerr.Err), s')

/-- The part of `*schema.ResourceData` that `resourceRuleDelete` reads. -/
structure ResourceData where
  Id : String
  predicates : List Predicate
  deriving DecidableEq, Repr

/-- The attempt function that `updateRuleResource` hands to `RetryWithToken`. -/
def updateRuleResource.attempt (conn : WAF) (id : String) (oldP newP : List Predicate) :
    Option String → Action (Except Err Unit) := fun token h =>
  let req : UpdateRuleInput :=
    { ChangeToken := token, RuleId := some id, Updates := (oldP, newP) }
  (conn.UpdateRuleWithContext h req, h ++ [Call.UpdateRule req])

/-- The function `updateRuleResource`. -/
def updateRuleResource (NewRetryer : WAF → Retryer) (id : String) (oldP newP : List Predicate)
    (conn : WAF) : Action (Option Err) := fun h =>
  let wr := NewRetryer conn
  match wr.RetryWithToken (updateRuleResource.attempt conn id oldP newP) h with
  | (Except.error err, h') => (some err, h')
  | (Except.ok _, h') => (none, h')

/-- The attempt function that `resourceRuleDelete` hands to `RetryWithToken`,
in the retry loop and after a timeout alike. -/
def resourceRuleDelete.attempt (conn : WAF) (d : ResourceData) :
    Option String → Action (Except Err Unit) := fun token h =>
  let req : DeleteRuleInput := { ChangeToken := token, RuleId := some d.Id }
  (conn.DeleteRuleWithContext h req, h ++ [Call.DeleteRule req])

/-- The state threaded through the delete part of `resourceRuleDelete`: the remote calls issued so far and
the number of times `wr.RetryWithToken` was invoked for the delete. -/
structure DeleteState where
  history : List Call
  attempts : Nat
  deriving DecidableEq, Repr

/-- One delete attempt: `wr.RetryWithToken` over the delete attempt
function, counted in the state. -/
def resourceRuleDelete.invoke (wr : Retryer) (conn : WAF) (d : ResourceData) :
    DeleteState → Option Err × DeleteState := fun s =>
  match wr.RetryWithToken (resourceRuleDelete.attempt conn d) s.history with
  | (Except.error err, h') => (some err, { history := h', attempts := s.attempts + 1 })
  | (Except.ok _, h') => (none, { history := h', attempts := s.attempts + 1 })

/-- The function literal passed to `resource.RetryContext` in
`resourceRuleDelete`. -/
def resourceRuleDelete.retryFunc (wr : Retryer) (conn : WAF) (d : ResourceData) :
    DeleteState → Option RetryError × DeleteState := fun s =>
  match resourceRuleDelete.invoke wr conn d s with
  | (some err, s') =>
      if ErrCodeEquals err ErrCodeReferencedItemException then (some (RetryableError err), s')
      else (some (NonRetryableError err), s')
  | (none, s') => (none, s')

/-- What the retry part of `resourceRuleDelete` leaves behind: the value of
`err` before the final `if err != nil`, whether the block under
`tfresource.TimedOut(err)` ran, and the state. -/
structure DeleteOutcome where
  err : Option WaitErr
  finalAttempt : Bool
  state : DeleteState
  deriving DecidableEq, Repr

/-- The middle of `resourceRuleDelete`: `resource.RetryContext` over the delete
and the one attempt made when its result is a timeout.  `rounds` abstracts the
`RuleDeleteTimeout` deadline, see `RetryContext`. -/
def resourceRuleDelete.delete (NewRetryer : WAF → Retryer) (rounds : Nat) (conn : WAF)
    (d : ResourceData) (s : DeleteState) : DeleteOutcome :=
  let wr := NewRetryer conn
  match RetryContext (resourceRuleDelete.retryFunc wr conn d) rounds none s with
  | (err, s') =>
      if TimedOut err then
        match resourceRuleDelete.invoke wr conn d s' with
        | (err', s'') => { err := err'.map WaitErr.result, finalAttempt := true, state := s'' }
      else { err := err, finalAttempt := false, state := s' }

/-- The end of `resourceRuleDelete`: the diagnostics returned for the final
value of `err`. -/
def resourceRuleDelete.report (d : ResourceData) : Option WaitErr → List String
  | some err =>
      if err.ErrCodeEquals ErrCodeNonexistentItemException then []
      else ["deleting WAF Rule (" ++ d.Id ++ "): " ++ err.Error]
  | none => []

/-- The function `resourceRuleDelete`: the error diagnostics it returns (the
empty list is success) and the outcome of the delete part, `none` when the
function returned before it. -/
def resourceRuleDelete (NewRetryer : WAF → Retryer) (rounds : Nat) (conn : WAF)
    (d : ResourceData) : List String × Option DeleteOutcome :=
  let start : Option Err × List Call :=
    if d.predicates.length > 0 then updateRuleResource NewRetryer d.Id d.predicates [] conn []
    else (none, [])
  match start with
  | (some err, _) =>
      (["updating WAF Rule (" ++ d.Id ++ ") predicates: " ++ err.Error], none)
  | (none, h) =>
      let out := resourceRuleDelete.delete NewRetryer rounds conn d { history := h, attempts := 0 }
      (resourceRuleDelete.report d out.err, some out)

/-- An example connection: the token fetch succeeds and every `DeleteRule`
fails with the referential-conflict error. -/
def exampleReferenced : WAF :=
  { GetChangeTokenWithContext := fun _ => Except.ok (some "t"),
    DeleteRuleWithContext := fun _ _ =>
      Except.error (Err.aws ErrCodeReferencedItemException "in use"),
    UpdateRuleWithContext := fun _ _ => Except.ok (),
    CreateRuleWithContext := fun _ _ => Except.ok (some "r") }

/-- An example connection for a rule that no longer exists: the token fetch
succeeds, `UpdateRule` and `DeleteRule` fail with the not-found error. -/
def exampleMissing : WAF :=
  { GetChangeTokenWithContext := fun _ => Except.ok (some "t"),
    DeleteRuleWithContext := fun _ _ =>
      Except.error (Err.aws ErrCodeNonexistentItemException "gone"),
    UpdateRuleWithContext := fun _ _ =>
      Except.error (Err.aws ErrCodeNonexistentItemException "gone"),
    CreateRuleWithContext := fun _ _ => Except.ok (some "r") }

/-- Modelled from the spec: `Tags` of the waf package (its generated
`tags_gen.go` is not among the sources), the encoder of the tag codec: one
record per key, in the order of the underlying mapping. -/
def Tags (tags : KeyValueTags) : List Tag :=
  tags.Map.map (fun kv => { Key := some kv.1, Value := some kv.2 })

/-- The attempt function that `resourceRuleCreate` hands to `RetryWithToken`.
`name` and `metric_name` are the values of `d.Get`, `tags` is the tag set
after `MergeTags`. -/
def resourceRuleCreate.attempt (conn : WAF) (name metric_name : String) (tags : KeyValueTags) :
    Option String → Action (Except Err (Option String)) := fun token h =>
  let params : CreateRuleInput :=
    { ChangeToken := token, MetricName := some metric_name, Name := some name,
      Tags := if tags.length > 0 then some (Tags tags.IgnoreAWS) else none }
  (conn.CreateRuleWithContext h params, h ++ [Call.CreateRule params])

/-- What `resourceRuleCreate` leaves behind: the error diagnostics, the ID set
by `d.SetId` if the rule was created, and whether the closing
`resourceRuleRead` was reached. -/
structure CreateOutcome where
  diags : List String
  Id : Option String
  read : Bool
  deriving DecidableEq, Repr

/-- The function `resourceRuleCreate` up to the closing `resourceRuleRead`,
which only reads (`GetRule` and `ListTags`) and is left out: the outcome and
the calls issued. -/
def resourceRuleCreate (NewRetryer : WAF → Retryer) (conn : WAF) (name metric_name : String)
    (tags : KeyValueTags) (predicates : List Predicate) : CreateOutcome × List Call :=
  let wr := NewRetryer conn
  match wr.RetryWithToken (resourceRuleCreate.attempt conn name metric_name tags) [] with
  | (Except.error err, h) =>
      ({ diags := ["creating WAF Rule (" ++ name ++ "): " ++ err.Error], Id := none,
         read := false }, h)
  | (Except.ok RuleId, h) =>
      let id := StringValue RuleId
      if predicates.length > 0 then
        match updateRuleResource NewRetryer id [] predicates conn h with
        | (some err, h') =>
            ({ diags := ["updating WAF Rule (" ++ id ++ "): " ++ err.Error], Id := some id,
               read := false }, h')
        | (none, h') => ({ diags := [], Id := some id, read := true }, h')
      else ({ diags := [], Id := some id, read := true }, h)

/-- A retryer that hands the token `tok h` to the attempt function when the
calls issued so far are `h`, runs it once and does nothing else. -/
def Retryer.handing (tok : List Call → Option String) : Retryer :=
  { RetryWithToken := fun f h => f (tok h) h }

/-- A retryer that never runs the attempt function and fails with `err`. -/
def Retryer.refusing (err : Err) : Retryer :=
  { RetryWithToken := fun _ h => (Except.error err, h) }

/-- Every call of `added`, issued after the calls `h`, is a mutating call
that carries the token `tok` gives for the calls issued before it. -/
def handedFrom (tok : List Call → Option String) : List Call → List Call → Prop
  | _, [] => True
  | h, c :: rest => c.ChangeToken = some (tok h) ∧ handedFrom tok (h ++ [c]) rest

end waf

/-! ## `internal/service/lakeformation/lf_tag.go` -/

namespace lakeformation

/-- The pieces of a string between the occurrences of the character `sep`,
as lists of characters: one piece more than there are occurrences. -/
def splitChars (sep : Char) : List Char → List (List Char)
  | [] => [[]]
  | c :: cs =>
      if c = sep then [] :: splitChars sep cs
      else
        match splitChars sep cs with
        | piece :: pieces => (c :: piece) :: pieces
        | [] => [[c]]

/-- The Go `strings.Split(s, sep)` for a separator of one character. -/
def Split (s : String) (sep : Char) : List String :=
  (splitChars sep s.data).map String.mk

/-- An error of the LF-Tag resource functions: the error
`fmt.Errorf("unexpected format of ID (%q), expected CATALOG-ID:TAG-KEY", id)`
of `ReadLFTagID`, or the error of a remote call. -/
inductive Error where
  | unexpectedFormat (id : String)
  | remote (err : Err)
  deriving DecidableEq, Repr

/-- An error diagnostic built by `sdkdiag.AppendErrorf(diags, text + "%s", err)`:
the text in front of the error, and the error. -/
structure Diagnostic where
  Summary : String
  err : Error
  deriving DecidableEq, Repr

/-- The function `ReadLFTagID`: the three results `catalogID`, `tagKey` and
`err` (`none` is `nil`). -/
def ReadLFTagID (id : String) : String × String × Option Error :=
  let idParts := Split id ':'
  if idParts.length ≠ 2 then ("", "", some (Error.unexpectedFormat id))
  else (idParts.getD 0 "", idParts.getD 1 "", none)

/-- The AWS SDK constant `lakeformation.ErrCodeEntityNotFoundException`. -/
def ErrCodeEntityNotFoundException : String := "EntityNotFoundException"

/-- The request `lakeformation.CreateLFTagInput`. -/
structure CreateLFTagInput where
  CatalogId : Option String
  TagKey : Option String
  TagValues : List String
  deriving DecidableEq, Repr

/-- The request `lakeformation.GetLFTagInput`. -/
structure GetLFTagInput where
  CatalogId : Option String
  TagKey : Option String
  deriving DecidableEq, Repr

/-- The request `lakeformation.UpdateLFTagInput`; a field of tag values is
`none` when it is left unset. -/
structure UpdateLFTagInput where
  CatalogId : Option String
  TagKey : Option String
  TagValuesToAdd : Option (List String)
  TagValuesToDelete : Option (List String)
  deriving DecidableEq, Repr

/-- The connection `*lakeformation.LakeFormation`: the error (or `none` for
success) each call answers with. -/
structure LakeFormation where
  CreateLFTagWithContext : CreateLFTagInput → Option Err
  GetLFTagWithContext : GetLFTagInput → Option Err
  UpdateLFTagWithContext : UpdateLFTagInput → Option Err

/-- The bytes of the UTF-8 encoding of a character. -/
def utf8 (c : Char) : List Nat :=
  let n := c.toNat
  if n < 0x80 then [n]
  else if n < 0x800 then [0xC0 + n / 64, 0x80 + n % 64]
  else if n < 0x10000 then [0xE0 + n / 4096, 0x80 + n / 64 % 64, 0x80 + n % 64]
  else [0xF0 + n / 262144, 0x80 + n / 4096 % 64, 0x80 + n / 64 % 64, 0x80 + n % 64]

/-- The Go conversion `[]byte(s)`. -/
def bytes (s : String) : List Nat :=
  s.data.foldr (fun c rest => utf8 c ++ rest) []

/-- One bit of the CRC-32 of Go's `hash/crc32`, reflected polynomial
`0xedb88320`. -/
def crcBit (crc : Nat) : Nat :=
  if crc % 2 = 1 then (crc / 2) ^^^ 0xEDB88320 else crc / 2

/-- One byte of the CRC-32: the byte is mixed into the low bits, then eight
bits are shifted out. -/
def crcByte (crc b : Nat) : Nat :=
  crcBit (crcBit (crcBit (crcBit (crcBit (crcBit (crcBit (crcBit (crc ^^^ b))))))))

/-- The Go `crc32.ChecksumIEEE`: the register starts at `0xffffffff` and is
inverted at the end. -/
def ChecksumIEEE (data : List Nat) : Nat :=
  (data.foldl crcByte 0xFFFFFFFF) ^^^ 0xFFFFFFFF

/-- The function `schema.HashString` of the plugin SDK, which the schema of
`values` names (`Set: schema.HashString`): the CRC-32 of the bytes of the
string, as an `int` of 64 bits, which is never negative. -/
def HashString (v : String) : Nat := ChecksumIEEE (bytes v)

/-- The method `Difference` of `*schema.Set` (plugin SDK, a dependency).  A set
holds each value under its code, here `HashString` of the value, and
`Difference` keeps the entries of the receiver whose code is not a key of
`other`.  A set of strings is the list of its values, and
`flex.ExpandStringSet` lists them as they are. -/
def Difference (s other : List String) : List String :=
  s.filter (fun v => !((other.map HashString).contains (HashString v)))

/-- The function `resourceLFTagRead`: the error diagnostics it returns.
`IsNewResource` is the value of `d.IsNewResource()`; what the function writes
to the resource data is left out. -/
def resourceLFTagRead (conn : LakeFormation) (Id : String) (IsNewResource : Bool) :
    List Diagnostic :=
  match ReadLFTagID Id with
  | (_, _, some err) =>
      [{ Summary := "reading Lake Formation LF-Tag (" ++ Id ++ "): ", err := err }]
  | (catalogID, tagKey, none) =>
      match conn.GetLFTagWithContext { CatalogId := some catalogID, TagKey := some tagKey } with
      | some err =>
          if !IsNewResource && waf.ErrCodeEquals err ErrCodeEntityNotFoundException then []
          else [{ Summary := "reading Lake Formation LF-Tag (" ++ Id ++ "): ",
                  err := Error.remote err }]
      | none => []

/-- The ID that `resourceLFTagCreate` passes to `d.SetId`:
`fmt.Sprintf("%s:%s", catalogID, tagKey)`. -/
def resourceLFTagCreate.id (catalogID tagKey : String) : String :=
  catalogID ++ ":" ++ tagKey

/-- The function `resourceLFTagCreate`: the ID it sets, if any, and the error
diagnostics it returns.  `key`, `values` and `catalog_id` are the values of
`d.Get`; `d.GetOk("catalog_id")` is not ok for the empty string. -/
def resourceLFTagCreate (conn : LakeFormation) (AccountID : String) (catalog_id key : String)
    (values : List String) : Option String × List Diagnostic :=
  let tagKey := key
  let catalogID := if catalog_id ≠ "" then catalog_id else AccountID
  let input : CreateLFTagInput :=
    { CatalogId := some catalogID, TagKey := some tagKey, TagValues := values }
  match conn.CreateLFTagWithContext input with
  | some err =>
      (none, [{ Summary := "creating Lake Formation LF-Tag: ", err := Error.remote err }])
  | none =>
      let Id := resourceLFTagCreate.id catalogID tagKey
      (some Id, resourceLFTagRead conn Id true)

/-- The request that `resourceLFTagUpdate` builds from the old and the new set
of values `os` and `ns`. -/
def resourceLFTagUpdate.input (catalogID tagKey : String) (os ns : List String) :
    UpdateLFTagInput :=
  let toAdd := Difference ns os
  let toDelete := Difference os ns
  { CatalogId := some catalogID, TagKey := some tagKey,
    TagValuesToAdd := if toAdd.length > 0 then some toAdd else none,
    TagValuesToDelete := if toDelete.length > 0 then some toDelete else none }

end lakeformation

/-! # Theorems -/

/-! ## Lemmas on the tag set -/

namespace KeyValueTags

theorem get_nil (k : String) : get [] k = none := rfl

theorem get_cons (k' : String) (v' : Option String) (rest : KeyValueTags) (k : String) :
    get ((k', v') :: rest) k = if k = k' then some v' else get rest k := by
  unfold get
  by_cases h : k = k'
  · subst h; simp [List.lookup]
  · have : (k == k') = false := by simpa using h
    simp [List.lookup, this, h]

theorem get_isSome_of_mem {tags : KeyValueTags} {p : String × Option String}
    (h : p ∈ tags) : (get tags p.1).isSome = true := by
  induction tags with
  | nil => cases h
  | cons q rest ih =>
    obtain ⟨k', v'⟩ := q
    rw [get_cons]
    by_cases hk : p.1 = k'
    · simp [hk]
    · rcases List.mem_cons.mp h with h | h
      · exact absurd (by rw [h]) hk
      · simpa [hk] using ih h

theorem get_eq_none_iff {tags : KeyValueTags} {k : String} :
    get tags k = none ↔ k ∉ tags.map Prod.fst := by
  induction tags with
  | nil => simp [get_nil]
  | cons q rest ih =>
    obtain ⟨k', v'⟩ := q
    rw [get_cons]
    by_cases hk : k = k'
    · simp [hk]
    · simp only [hk, if_false, ih, List.map_cons, List.mem_cons, false_or]

theorem get_eq_some_of_mem {tags : KeyValueTags} (hwf : tags.WF)
    {p : String × Option String} (h : p ∈ tags) : get tags p.1 = some p.2 := by
  induction tags with
  | nil => cases h
  | cons q rest ih =>
    obtain ⟨k', v'⟩ := q
    have hnd : k' ∉ rest.map Prod.fst ∧ (rest.map Prod.fst).Nodup := by
      simpa [WF] using hwf
    rw [get_cons]
    rcases List.mem_cons.mp h with h | h
    · subst h; simp
    · have hne : p.1 ≠ k' := by
        intro he
        exact hnd.1 (he ▸ List.mem_map_of_mem Prod.fst h)
      simpa [hne] using ih hnd.2 h

theorem Removed_self (tags : KeyValueTags) : Removed tags tags = [] := by
  unfold Removed
  rw [List.filter_eq_nil_iff]
  intro p hp
  have h := get_isSome_of_mem hp
  cases hg : get tags p.1 with
  | none => rw [hg] at h; cases h
  | some v => simp

theorem Updated_self {tags : KeyValueTags} (hwf : tags.WF) : Updated tags tags = [] := by
  unfold Updated
  rw [List.filter_eq_nil_iff]
  intro p hp
  simp [get_eq_some_of_mem hwf hp]



theorem get_set (tags : KeyValueTags) (k : String) (v : Option String) (k' : String) :
    get (set tags k v) k' = if k' = k then some v else get tags k' := by
  induction tags with
  | nil => simp [set, get_cons, get_nil]
  | cons q rest ih =>
    obtain ⟨k0, v0⟩ := q
    by_cases h0 : k0 = k
    · subst h0
      simp only [set, if_true, get_cons]
      by_cases h1 : k' = k0 <;> simp [h1]
    · simp only [set, h0, if_false, get_cons, ih]
      by_cases h1 : k' = k0
      · have : k' ≠ k := fun h => h0 (h1 ▸ h)
        simp [h1, h0]
      · simp [h1]

theorem mem_keys_set (tags : KeyValueTags) (k : String) (v : Option String) (k' : String) :
    k' ∈ (set tags k v).map Prod.fst ↔ k' = k ∨ k' ∈ tags.map Prod.fst := by
  rw [← not_iff_not, ← get_eq_none_iff, get_set, not_or, ← get_eq_none_iff]
  by_cases h : k' = k <;> simp [h]

theorem set_of_not_mem {tags : KeyValueTags} {k : String} (v : Option String)
    (h : k ∉ tags.map Prod.fst) : set tags k v = tags ++ [(k, v)] := by
  induction tags with
  | nil => rfl
  | cons q rest ih =>
    obtain ⟨k0, v0⟩ := q
    have h0 : k0 ≠ k := by
      intro he; apply h; simp [he]
    have h1 : k ∉ rest.map Prod.fst := by
      intro hm; apply h; simp only [List.map_cons, List.mem_cons]; exact Or.inr hm
    simp [set, h0, ih h1]

theorem WF_set {tags : KeyValueTags} (hwf : tags.WF) (k : String) (v : Option String) :
    (set tags k v).WF := by
  induction tags with
  | nil => simp [set, WF]
  | cons q rest ih =>
    obtain ⟨k0, v0⟩ := q
    have hnd : k0 ∉ rest.map Prod.fst ∧ (rest.map Prod.fst).Nodup := by
      simpa [WF] using hwf
    by_cases h0 : k0 = k
    · subst h0
      simpa [set, WF] using hnd
    · have hk : k0 ∉ (set rest k v).map Prod.fst := by
        rw [mem_keys_set]; exact not_or.mpr ⟨h0, hnd.1⟩
      have := ih hnd.2
      simp only [set, h0, if_false, WF, List.map_cons, List.nodup_cons]
      exact ⟨hk, this⟩

end KeyValueTags

namespace acmpca

theorem KeyValueTags_append (tags : List Tag) (t : Tag) :
    KeyValueTags (tags ++ [t]) = (KeyValueTags tags).set (StringValue t.Key) t.Value := by
  simp [KeyValueTags, List.foldl_append]

theorem KeyValueTags_WF (tags : List Tag) : (KeyValueTags tags).WF := by
  induction tags using List.reverseRecOn with
  | nil => simp [KeyValueTags, KeyValueTags.WF]
  | append_singleton ts t ih => rw [KeyValueTags_append]; exact KeyValueTags.WF_set ih _ _

theorem KeyValueTags_get (tags : List Tag) (k : String) :
    (KeyValueTags tags).get k =
      (tags.reverse.find? (fun t => StringValue t.Key == k)).map (fun t => t.Value) := by
  induction tags using List.reverseRecOn with
  | nil => rfl
  | append_singleton ts t ih =>
    rw [KeyValueTags_append, KeyValueTags.get_set, List.reverse_append, ih]
    by_cases h : k = StringValue t.Key
    · simp [h]
    · have : (StringValue t.Key == k) = false := by
        simpa using fun he => h he.symm
      simp [h, List.find?, this]

theorem KeyValueTags_keys (tags : List Tag) (k : String) :
    k ∈ (KeyValueTags tags).map Prod.fst ↔ ∃ t ∈ tags, StringValue t.Key = k := by
  induction tags using List.reverseRecOn with
  | nil => simp [KeyValueTags]
  | append_singleton ts t ih =>
    rw [KeyValueTags_append, KeyValueTags.mem_keys_set, ih]
    constructor
    · rintro (h | ⟨t', ht', hk⟩)
      · exact ⟨t, by simp, h.symm⟩
      · exact ⟨t', by simp [ht'], hk⟩
    · rintro ⟨t', ht', hk⟩
      rcases List.mem_append.mp ht' with h | h
      · exact Or.inr ⟨t', h, hk⟩
      · simp only [List.mem_singleton] at h
        subst h; exact Or.inl hk.symm

/-- Decoding the encoding of a well-formed set gives the same keys in the same
order, each with the string that `Map` gives for its value. -/
theorem KeyValueTags_Tags_aux (acc S : TfAws.KeyValueTags) (hwf : KeyValueTags.WF (acc ++ S)) :
    (Tags S).foldl (fun m tag => m.set (StringValue tag.Key) tag.Value) acc =
      acc ++ S.map (fun p => (p.1, some (p.2.getD ""))) := by
  induction S generalizing acc with
  | nil => simp [Tags, KeyValueTags.Map]
  | cons p rest ih =>
    obtain ⟨k, v⟩ := p
    have hnd : ((acc.map Prod.fst) ++ (k :: rest.map Prod.fst)).Nodup := by
      simpa [KeyValueTags.WF] using hwf
    have hk : k ∉ acc.map Prod.fst := by
      intro hm
      exact (List.nodup_append.mp hnd).2.2 hm (by simp)
    have hwf' : KeyValueTags.WF ((acc ++ [(k, some (v.getD ""))]) ++ rest) := by
      simpa [KeyValueTags.WF] using hnd
    have := ih (acc ++ [(k, some (v.getD ""))]) hwf'
    simp only [Tags, KeyValueTags.Map, List.map_cons, List.map_map, List.foldl_cons,
      StringValue, Option.getD_some] at this ⊢
    rw [KeyValueTags.set_of_not_mem _ hk]
    simpa using this

theorem get_map_value (S : TfAws.KeyValueTags) (f : Option String → Option String)
    (k : String) :
    KeyValueTags.get (S.map (fun p => (p.1, f p.2))) k = (KeyValueTags.get S k).map f := by
  induction S with
  | nil => rfl
  | cons p rest ih =>
    obtain ⟨k', v'⟩ := p
    simp only [List.map_cons, KeyValueTags.get_cons, ih]
    by_cases h : k = k' <;> simp [h]

end acmpca

namespace KeyValueTags

theorem mem_Removed {tags newTags : KeyValueTags} {p : String × Option String} :
    p ∈ Removed tags newTags ↔ p ∈ tags ∧ get newTags p.1 = none := by
  simp [Removed, List.mem_filter, Option.isNone_iff_eq_none]

theorem mem_Updated {tags newTags : KeyValueTags} {p : String × Option String} :
    p ∈ Updated tags newTags ↔ p ∈ newTags ∧ get tags p.1 ≠ some p.2 := by
  simp [Updated, List.mem_filter]

theorem mem_IgnoreAWS {tags : KeyValueTags} {p : String × Option String} :
    p ∈ IgnoreAWS tags ↔ p ∈ tags ∧ HasPrefix p.1 AwsTagKeyPrefix = false := by
  simp [IgnoreAWS, List.mem_filter]

end KeyValueTags

namespace acmpca

theorem mem_Tags {tags : TfAws.KeyValueTags} {t : Tag} :
    t ∈ Tags tags ↔ ∃ k v, (k, v) ∈ tags ∧ t = { Key := some k, Value := some (v.getD "") } := by
  simp only [Tags, KeyValueTags.Map, List.map_map, List.mem_map, Function.comp, Prod.exists]
  constructor
  · rintro ⟨k, v, h, rfl⟩; exact ⟨k, v, h, rfl⟩
  · rintro ⟨k, v, h, rfl⟩; exact ⟨k, v, h, rfl⟩

/-- C1: reconciling a tag set against itself: `A.Removed(A)` and `A.Updated(A)`
are both empty, and `UpdateTags` with old = new = A issues no remote call
(neither untag nor tag) and returns no error, whatever the connection would
answer. -/
theorem UpdateTags_same (conn : ACMPCAAPI) (identifier : String) (A : TfAws.KeyValueTags)
    (hA : A.WF) :
    A.Removed A = [] ∧ A.Updated A = [] ∧ UpdateTags conn identifier A A = ([], none) := by
  have h1 := KeyValueTags.Removed_self A
  have h2 := KeyValueTags.Updated_self hA
  refine ⟨h1, h2, ?_⟩
  simp [UpdateTags, UpdateTags.tagStep, h1, h2]

theorem UpdateTags_same_witness :
    KeyValueTags.WF [("a", some "1"), ("b", none)] ∧
      (KeyValueTags.Removed [("a", some "1"), ("b", none)] [("a", some "1"), ("b", none)] = [] ∧
        KeyValueTags.Updated [("a", some "1"), ("b", none)] [("a", some "1"), ("b", none)] = [] ∧
        UpdateTags ⟨fun _ => some (Err.aws "E" "denied"), fun _ => some (Err.aws "E" "denied")⟩
          "arn" [("a", some "1"), ("b", none)] [("a", some "1"), ("b", none)] = ([], none)) :=
  ⟨by decide, UpdateTags_same _ "arn" [("a", some "1"), ("b", none)] (by decide)⟩


theorem ne_nil_iff_exists_mem {α : Type} (l : List α) : l ≠ [] ↔ ∃ x, x ∈ l := by
  cases l <;> simp

/-- C2, as stated, fails: for old = {"aws:x": "1", a: "1"} and new = {} both
keys of old are absent from new and the one call issued, the untag call,
succeeds, but its payload holds the key `a` only, not `aws:x`. -/
theorem UpdateTags_payload_counterexample :
    (∀ c ∈ (UpdateTags exampleValidating "arn" [("aws:x", some "1"), ("a", some "1")] []).1,
        exampleValidating.respond c = none) ∧
      ("aws:x", some "1") ∈ ([("aws:x", some "1"), ("a", some "1")] : TfAws.KeyValueTags) ∧
      KeyValueTags.get [] "aws:x" = none ∧
      UpdateTags exampleValidating "arn" [("aws:x", some "1"), ("a", some "1")] [] =
        ([Call.UntagCertificateAuthority
            { CertificateAuthorityArn := some "arn",
              Tags := [{ Key := some "a", Value := some "1" }] }],
          none) := by
  decide

/-- What `UpdateTags` does when every call it issues succeeds. -/
theorem UpdateTags_of_success (conn : ACMPCAAPI) (identifier : String)
    (o n : TfAws.KeyValueTags)
    (hok : ∀ c ∈ (UpdateTags conn identifier o n).1, conn.respond c = none) :
    UpdateTags conn identifier o n =
      ((if o.Removed n = [] then []
        else [Call.UntagCertificateAuthority
          { CertificateAuthorityArn := some identifier, Tags := Tags (o.Removed n).IgnoreAWS }]) ++
       (if o.Updated n = [] then []
        else [Call.TagCertificateAuthority
          { CertificateAuthorityArn := some identifier, Tags := Tags (o.Updated n).IgnoreAWS }]),
       none) := by
  by_cases hR : o.Removed n = [] <;> by_cases hUp : o.Updated n = [] <;>
    cases hu : conn.UntagCertificateAuthorityWithContext
        { CertificateAuthorityArn := some identifier,
          Tags := Tags (o.Removed n).IgnoreAWS } <;>
    cases ht : conn.TagCertificateAuthorityWithContext
        { CertificateAuthorityArn := some identifier,
          Tags := Tags (o.Updated n).IgnoreAWS } <;>
    simp [UpdateTags, UpdateTags.tagStep, hR, hUp, hu, ht, List.length_pos,
      ACMPCAAPI.respond] at hok ⊢

/-- C2, amended: when every remote call that `UpdateTags` issues succeeds, it
returns nil after at most two calls, untag first and tag second.  The untag
call is issued exactly when a key of old is absent from new, and its payload
holds exactly the entries of old whose key is absent from new and does not
start with `aws:`.  The tag call is issued exactly when an entry of new is
absent from old or differs from it, and its payload holds exactly those
entries of new whose key does not start with `aws:`; a value-less entry is
sent with the empty string.  For old = {a:"1", b:"2"}, new = {b:"3", c:"4"}
the calls are untag of a and then tag of {b:"3", c:"4"}. -/
theorem UpdateTags_calls (conn : ACMPCAAPI) (identifier : String)
    (old new : TfAws.KeyValueTags)
    (hok : ∀ c ∈ (UpdateTags conn identifier old new).1, conn.respond c = none) :
    UpdateTags conn identifier old new =
        ((if old.Removed new = [] then []
          else [Call.UntagCertificateAuthority
            { CertificateAuthorityArn := some identifier, Tags := Tags (old.Removed new).IgnoreAWS }]) ++
         (if old.Updated new = [] then []
          else [Call.TagCertificateAuthority
            { CertificateAuthorityArn := some identifier, Tags := Tags (old.Updated new).IgnoreAWS }]),
         none) ∧
      (old.Removed new ≠ [] ↔ ∃ p ∈ old, new.get p.1 = none) ∧
      (old.Updated new ≠ [] ↔ ∃ p ∈ new, old.get p.1 ≠ some p.2) ∧
      (∀ t, t ∈ Tags (old.Removed new).IgnoreAWS ↔
        ∃ k v, (k, v) ∈ old ∧ new.get k = none ∧ HasPrefix k AwsTagKeyPrefix = false ∧
          t = { Key := some k, Value := some (v.getD "") }) ∧
      (∀ t, t ∈ Tags (old.Updated new).IgnoreAWS ↔
        ∃ k v, (k, v) ∈ new ∧ old.get k ≠ some v ∧ HasPrefix k AwsTagKeyPrefix = false ∧
          t = { Key := some k, Value := some (v.getD "") }) ∧
      ((∀ c ∈ (UpdateTags conn identifier [("a", some "1"), ("b", some "2")]
            [("b", some "3"), ("c", some "4")]).1, conn.respond c = none) →
        UpdateTags conn identifier [("a", some "1"), ("b", some "2")]
            [("b", some "3"), ("c", some "4")] =
          ([Call.UntagCertificateAuthority
              { CertificateAuthorityArn := some identifier,
                Tags := [{ Key := some "a", Value := some "1" }] },
            Call.TagCertificateAuthority
              { CertificateAuthorityArn := some identifier,
                Tags := [{ Key := some "b", Value := some "3" },
                  { Key := some "c", Value := some "4" }] }], none)) := by
  refine ⟨UpdateTags_of_success conn identifier old new hok, ?_, ?_, ?_, ?_, ?_⟩
  · rw [ne_nil_iff_exists_mem]
    simp only [KeyValueTags.mem_Removed]
  · rw [ne_nil_iff_exists_mem]
    simp only [KeyValueTags.mem_Updated]
  · intro t
    simp only [mem_Tags, KeyValueTags.mem_IgnoreAWS, KeyValueTags.mem_Removed]
    constructor
    · rintro ⟨k, v, ⟨⟨h1, h2⟩, h3⟩, rfl⟩; exact ⟨k, v, h1, h2, h3, rfl⟩
    · rintro ⟨k, v, h1, h2, h3, rfl⟩; exact ⟨k, v, ⟨⟨h1, h2⟩, h3⟩, rfl⟩
  · intro t
    simp only [mem_Tags, KeyValueTags.mem_IgnoreAWS, KeyValueTags.mem_Updated]
    constructor
    · rintro ⟨k, v, ⟨⟨h1, h2⟩, h3⟩, rfl⟩; exact ⟨k, v, h1, h2, h3, rfl⟩
    · rintro ⟨k, v, h1, h2, h3, rfl⟩; exact ⟨k, v, ⟨⟨h1, h2⟩, h3⟩, rfl⟩
  · intro hex
    have e1 : KeyValueTags.Removed [("a", some "1"), ("b", some "2")]
        [("b", some "3"), ("c", some "4")] = [("a", some "1")] := by decide
    have e2 : KeyValueTags.Updated [("a", some "1"), ("b", some "2")]
        [("b", some "3"), ("c", some "4")] = [("b", some "3"), ("c", some "4")] := by decide
    have e3 : Tags (KeyValueTags.IgnoreAWS [("a", some "1")]) =
        [{ Key := some "a", Value := some "1" }] := by decide
    have e4 : Tags (KeyValueTags.IgnoreAWS [("b", some "3"), ("c", some "4")]) =
        [{ Key := some "b", Value := some "3" }, { Key := some "c", Value := some "4" }] := by
      decide
    rw [UpdateTags_of_success conn identifier _ _ hex, e1, e2, e3, e4]
    simp

theorem UpdateTags_calls_witness :
    (∀ c ∈ (UpdateTags exampleValidating "arn" [("a", some "1"), ("b", some "2")]
        [("b", some "3"), ("c", some "4")]).1, exampleValidating.respond c = none) ∧
      UpdateTags exampleValidating "arn" [("a", some "1"), ("b", some "2")]
          [("b", some "3"), ("c", some "4")] =
        ([Call.UntagCertificateAuthority
            { CertificateAuthorityArn := some "arn",
              Tags := [{ Key := some "a", Value := some "1" }] },
          Call.TagCertificateAuthority
            { CertificateAuthorityArn := some "arn",
              Tags := [{ Key := some "b", Value := some "3" },
                { Key := some "c", Value := some "4" }] }], none) :=
  ⟨by decide,
    (UpdateTags_calls exampleValidating "arn" [("a", some "1"), ("b", some "2")]
      [("b", some "3"), ("c", some "4")] (by decide)).2.2.2.2.2 (by decide)⟩

/-- C3: decoding a wire list gives a map with pairwise distinct keys that
sends every key to the value of its last occurrence in the list (the first one
met when the list is read backwards), `none` for a key that does not occur;
its keys are exactly the keys occurring in the list; and decoding
`[(k,"1"), (k,"2")]` gives exactly `{k: "2"}`. -/
theorem KeyValueTags_last_wins (tags : List Tag) :
    (KeyValueTags tags).WF ∧
      (∀ k, (KeyValueTags tags).get k =
        (tags.reverse.find? (fun t => StringValue t.Key == k)).map (fun t => t.Value)) ∧
      (∀ k, k ∈ (KeyValueTags tags).map Prod.fst ↔ ∃ t ∈ tags, StringValue t.Key = k) ∧
      (∀ k : String, KeyValueTags [{ Key := some k, Value := some "1" },
        { Key := some k, Value := some "2" }] = [(k, some "2")]) := by
  refine ⟨KeyValueTags_WF tags, KeyValueTags_get tags, KeyValueTags_keys tags, ?_⟩
  intro k
  simp [KeyValueTags, KeyValueTags.set, StringValue]

/-- C4, as stated, fails: the set {k: no value} is encoded as the record
(k, "") and decodes to {k: ""}, where k has a value. -/
theorem KeyValueTags_Tags_counterexample :
    KeyValueTags.WF [("k", none)] ∧
      KeyValueTags (Tags [("k", none)]) = [("k", some "")] ∧
      (KeyValueTags (Tags [("k", none)])).get "k" ≠ KeyValueTags.get [("k", none)] "k" := by
  decide

/-- C4, amended: for every tag set S with pairwise distinct keys, decoding the
encoding of S gives a set with the same keys as S; a key whose value is
present in S has the same value, and a key whose value is absent in S comes
back with a present value, the empty string.  So the round trip gives S back
exactly when every key of S has a value. -/
theorem KeyValueTags_Tags_roundtrip (S : TfAws.KeyValueTags) (hwf : S.WF) :
    (KeyValueTags (Tags S)).WF ∧
      (∀ k, k ∈ (KeyValueTags (Tags S)).map Prod.fst ↔ k ∈ S.map Prod.fst) ∧
      (∀ k v, S.get k = some (some v) → (KeyValueTags (Tags S)).get k = some (some v)) ∧
      (∀ k, S.get k = some none → (KeyValueTags (Tags S)).get k = some (some "")) ∧
      (∀ k, (KeyValueTags (Tags S)).get k = (S.get k).map (fun v => some (v.getD ""))) ∧
      (KeyValueTags (Tags S) = S ↔ ∀ p ∈ S, p.2.isSome = true) := by
  have h : KeyValueTags (Tags S) = S.map (fun p => (p.1, some (p.2.getD ""))) := by
    have := KeyValueTags_Tags_aux [] S (by simpa using hwf)
    simpa [KeyValueTags] using this
  have hget : ∀ k, (KeyValueTags (Tags S)).get k =
      (S.get k).map (fun v => some (v.getD "")) := by
    intro k
    rw [h]
    exact get_map_value S (fun v => some (v.getD "")) k
  refine ⟨KeyValueTags_WF _, ?_, ?_, ?_, hget, ?_⟩
  · intro k
    rw [h]
    simp [List.map_map, Function.comp]
  · intro k v hk
    rw [hget, hk]; rfl
  · intro k hk
    rw [hget, hk]; rfl
  · rw [h]
    constructor
    · intro heq p hp
      have hmem : (p.1, some (p.2.getD "")) ∈ S := by
        rw [← heq]
        exact List.mem_map.mpr ⟨p, hp, rfl⟩
      have h1 := KeyValueTags.get_eq_some_of_mem hwf hp
      have h2 := KeyValueTags.get_eq_some_of_mem hwf hmem
      simp only at h2
      rw [h1] at h2
      have h3 : p.2 = some (p.2.getD "") := Option.some.inj h2
      rw [h3]; rfl
    · intro hv
      calc S.map (fun p => (p.1, some (p.2.getD "")))
          = S.map id := by
            apply List.map_congr_left
            intro p hp
            have := hv p hp
            obtain ⟨k, v⟩ := p
            cases v with
            | none => cases this
            | some x => rfl
        _ = S := List.map_id S

theorem KeyValueTags_Tags_roundtrip_witness :
    KeyValueTags.WF [("a", some "1"), ("k", none)] ∧
      KeyValueTags.get (KeyValueTags (Tags [("a", some "1"), ("k", none)])) "a" =
        some (some "1") ∧
      KeyValueTags.get (KeyValueTags (Tags [("a", some "1"), ("k", none)])) "k" =
        some (some "") :=
  have h := KeyValueTags_Tags_roundtrip [("a", some "1"), ("k", none)] (by decide)
  ⟨by decide, h.2.2.1 "a" "1" (by decide), h.2.2.2.1 "k" (by decide)⟩

/-- C8: `UpdateTags` returns nil exactly when every call it issued succeeded.
When it returns an error, the last call issued is the one that failed, every
call before it succeeded, and the error wraps the remote error behind the text
"untagging resource (id): " for the untag call and "tagging resource (id): "
for the tag call.  A failed untag call is the only call issued; when the untag
call succeeds and the tag call fails, the calls issued are exactly the untag
call and the tag call, and the error is the tagging error. -/
theorem UpdateTags_errors (conn : ACMPCAAPI) (identifier : String)
    (old new : TfAws.KeyValueTags) :
    ((UpdateTags conn identifier old new).2 = none ↔
        ∀ c ∈ (UpdateTags conn identifier old new).1, conn.respond c = none) ∧
      (∀ e, (UpdateTags conn identifier old new).2 = some e →
        ∃ issued c inner, (UpdateTags conn identifier old new).1 = issued ++ [c] ∧
          (∀ c' ∈ issued, conn.respond c' = none) ∧ conn.respond c = some inner ∧
          e.Unwrap = some inner ∧
          ((∃ i, c = Call.UntagCertificateAuthority i ∧
              e = Err.errorf ("untagging resource (" ++ identifier ++ "): ") inner) ∨
            (∃ i, c = Call.TagCertificateAuthority i ∧
              e = Err.errorf ("tagging resource (" ++ identifier ++ "): ") inner))) ∧
      (∀ inner, old.Removed new ≠ [] →
        conn.UntagCertificateAuthorityWithContext
          { CertificateAuthorityArn := some identifier,
            Tags := Tags (old.Removed new).IgnoreAWS } = some inner →
        UpdateTags conn identifier old new =
          ([Call.UntagCertificateAuthority
              { CertificateAuthorityArn := some identifier,
                Tags := Tags (old.Removed new).IgnoreAWS }],
            some (Err.errorf ("untagging resource (" ++ identifier ++ "): ") inner))) ∧
      (∀ inner, old.Removed new ≠ [] →
        conn.UntagCertificateAuthorityWithContext
          { CertificateAuthorityArn := some identifier,
            Tags := Tags (old.Removed new).IgnoreAWS } = none →
        old.Updated new ≠ [] →
        conn.TagCertificateAuthorityWithContext
          { CertificateAuthorityArn := some identifier,
            Tags := Tags (old.Updated new).IgnoreAWS } = some inner →
        UpdateTags conn identifier old new =
          ([Call.UntagCertificateAuthority
              { CertificateAuthorityArn := some identifier,
                Tags := Tags (old.Removed new).IgnoreAWS },
            Call.TagCertificateAuthority
              { CertificateAuthorityArn := some identifier,
                Tags := Tags (old.Updated new).IgnoreAWS }],
            some (Err.errorf ("tagging resource (" ++ identifier ++ "): ") inner))) := by
  refine ⟨?_, ?_, ?_, ?_⟩
  · by_cases hR : old.Removed new = [] <;> by_cases hUp : old.Updated new = [] <;>
      cases hu : conn.UntagCertificateAuthorityWithContext
          { CertificateAuthorityArn := some identifier,
            Tags := Tags (old.Removed new).IgnoreAWS } <;>
      cases ht : conn.TagCertificateAuthorityWithContext
          { CertificateAuthorityArn := some identifier,
            Tags := Tags (old.Updated new).IgnoreAWS } <;>
      simp [UpdateTags, UpdateTags.tagStep, hR, hUp, hu, ht, List.length_pos,
        ACMPCAAPI.respond]
  · intro e he
    by_cases hR : old.Removed new = []
    · by_cases hUp : old.Updated new = []
      · simp [UpdateTags, UpdateTags.tagStep, hR, hUp] at he
      · cases ht : conn.TagCertificateAuthorityWithContext
            { CertificateAuthorityArn := some identifier,
              Tags := Tags (old.Updated new).IgnoreAWS } with
        | none => simp [UpdateTags, UpdateTags.tagStep, hR, hUp, ht, List.length_pos] at he
        | some x =>
          have hval : UpdateTags conn identifier old new =
              ([Call.TagCertificateAuthority
                  { CertificateAuthorityArn := some identifier,
                    Tags := Tags (old.Updated new).IgnoreAWS }],
                some (Err.errorf ("tagging resource (" ++ identifier ++ "): ") x)) := by
            simp [UpdateTags, UpdateTags.tagStep, hR, hUp, ht, List.length_pos]
          rw [hval] at he ⊢
          simp only [Option.some.injEq] at he
          subst he
          exact ⟨[], _, x, rfl, by simp, ht, rfl, Or.inr ⟨_, rfl, rfl⟩⟩
    · cases hu : conn.UntagCertificateAuthorityWithContext
          { CertificateAuthorityArn := some identifier,
            Tags := Tags (old.Removed new).IgnoreAWS } with
      | some x =>
        have hval : UpdateTags conn identifier old new =
            ([Call.UntagCertificateAuthority
                { CertificateAuthorityArn := some identifier,
                  Tags := Tags (old.Removed new).IgnoreAWS }],
              some (Err.errorf ("untagging resource (" ++ identifier ++ "): ") x)) := by
          simp [UpdateTags, hR, hu, List.length_pos]
        rw [hval] at he ⊢
        simp only [Option.some.injEq] at he
        subst he
        exact ⟨[], _, x, rfl, by simp, hu, rfl, Or.inl ⟨_, rfl, rfl⟩⟩
      | none =>
        by_cases hUp : old.Updated new = []
        · simp [UpdateTags, UpdateTags.tagStep, hR, hUp, hu, List.length_pos] at he
        · cases ht : conn.TagCertificateAuthorityWithContext
              { CertificateAuthorityArn := some identifier,
                Tags := Tags (old.Updated new).IgnoreAWS } with
          | none =>
            simp [UpdateTags, UpdateTags.tagStep, hR, hUp, hu, ht, List.length_pos] at he
          | some x =>
            have hval : UpdateTags conn identifier old new =
                ([Call.UntagCertificateAuthority
                    { CertificateAuthorityArn := some identifier,
                      Tags := Tags (old.Removed new).IgnoreAWS },
                  Call.TagCertificateAuthority
                    { CertificateAuthorityArn := some identifier,
                      Tags := Tags (old.Updated new).IgnoreAWS }],
                  some (Err.errorf ("tagging resource (" ++ identifier ++ "): ") x)) := by
              simp [UpdateTags, UpdateTags.tagStep, hR, hUp, hu, ht, List.length_pos]
            rw [hval] at he ⊢
            simp only [Option.some.injEq] at he
            subst he
            refine ⟨[_], _, x, rfl, ?_, ht, rfl, Or.inr ⟨_, rfl, rfl⟩⟩
            intro c' hc'
            simp only [List.mem_singleton] at hc'
            subst hc'
            exact hu
  · intro inner hR hu
    simp [UpdateTags, hR, hu, List.length_pos]
  · intro inner hR hu hUp ht
    simp [UpdateTags, UpdateTags.tagStep, hR, hUp, hu, ht, List.length_pos]

end acmpca

namespace inspector

theorem mem_inspector_Tags {tags : KeyValueTags} {t : Tag} :
    t ∈ Tags tags ↔ ∃ k v, (k, v) ∈ tags ∧ t = { Key := some k, Value := some (v.getD "") } := by
  simp only [Tags, KeyValueTags.Map, List.map_map, List.mem_map, Function.comp, Prod.exists]
  constructor
  · rintro ⟨k, v, h, rfl⟩; exact ⟨k, v, h, rfl⟩
  · rintro ⟨k, v, h, rfl⟩; exact ⟨k, v, h, rfl⟩

/-- C5: with a non-empty old tag set and an empty new one, `updateTags` issues
exactly one remote call, the `SetTagsForResource` request that carries the
resource identifier and no `Tags` field at all (not an empty tag list); with
both sets empty it issues no call. -/
theorem updateTags_clear (conn : Inspector) (identifier : String) (old : KeyValueTags)
    (hold : old ≠ []) :
    (updateTags conn identifier old []).1 =
        [{ ResourceArn := some identifier, Tags := none }] ∧
      (∀ c ∈ (updateTags conn identifier old []).1, c.Tags ≠ some []) ∧
      updateTags conn identifier [] [] = ([], none) := by
  have h : (updateTags conn identifier old []).1 =
      [{ ResourceArn := some identifier, Tags := none }] := by
    cases hc : conn.SetTagsForResourceWithContext { ResourceArn := some identifier, Tags := none } <;>
      simp [updateTags, hold, hc, List.length_pos]
  refine ⟨h, ?_, by simp [updateTags]⟩
  rw [h]
  intro c hc
  simp only [List.mem_singleton] at hc
  subst hc
  simp

theorem updateTags_clear_witness :
    ([("a", some "1")] : KeyValueTags) ≠ [] ∧
      (updateTags ⟨fun _ => none⟩ "arn" [("a", some "1")] []).1 =
        [{ ResourceArn := some "arn", Tags := none }] :=
  ⟨by decide, (updateTags_clear ⟨fun _ => none⟩ "arn" [("a", some "1")] (by decide)).1⟩

/-- C6, as stated, fails: for new = {"aws:x": "1"}, a non-empty set, the one
call issued carries an empty tag list, with no record for the pair of new. -/
theorem updateTags_payload_counterexample :
    ([("aws:x", some "1")] : KeyValueTags) ≠ [] ∧
      (updateTags ⟨fun _ => none⟩ "arn" [] [("aws:x", some "1")]).1 =
        [{ ResourceArn := some "arn", Tags := some [] }] := by
  decide

/-- C6, amended: for every old tag set and every non-empty new tag set,
`updateTags` issues exactly one remote call, whose tag payload holds one
record for every entry of new whose key does not start with `aws:` (a
value-less entry is sent with the empty string) and nothing else; the payload
is non-empty whenever new has a key that does not start with `aws:`. -/
theorem updateTags_payload (conn : Inspector) (identifier : String) (old new : KeyValueTags)
    (hnew : new ≠ []) :
    ∃ payload, (updateTags conn identifier old new).1 =
        [{ ResourceArn := some identifier, Tags := some payload }] ∧
      payload = (new.filter (fun p => !(HasPrefix p.1 AwsTagKeyPrefix))).map
        (fun p => { Key := some p.1, Value := some (p.2.getD "") }) ∧
      (∀ t, t ∈ payload ↔ ∃ k v, (k, v) ∈ new ∧ HasPrefix k AwsTagKeyPrefix = false ∧
        t = { Key := some k, Value := some (v.getD "") }) ∧
      ((∃ p ∈ new, HasPrefix p.1 AwsTagKeyPrefix = false) → payload ≠ []) := by
  refine ⟨Tags new.IgnoreAWS, ?_, ?_, ?_, ?_⟩
  · cases hc : conn.SetTagsForResourceWithContext
        { ResourceArn := some identifier, Tags := some (Tags new.IgnoreAWS) } <;>
      simp [updateTags, hnew, hc, List.length_pos]
  · simp [Tags, KeyValueTags.Map, KeyValueTags.IgnoreAWS, List.map_map, Function.comp]
  · intro t
    simp only [mem_inspector_Tags, KeyValueTags.mem_IgnoreAWS]
    constructor
    · rintro ⟨k, v, ⟨h1, h2⟩, rfl⟩; exact ⟨k, v, h1, h2, rfl⟩
    · rintro ⟨k, v, h1, h2, rfl⟩; exact ⟨k, v, ⟨h1, h2⟩, rfl⟩
  · rintro ⟨p, hp, hpre⟩ hnil
    have : ({ Key := some p.1, Value := some (p.2.getD "") } : Tag) ∈ Tags new.IgnoreAWS :=
      mem_inspector_Tags.mpr ⟨p.1, p.2, KeyValueTags.mem_IgnoreAWS.mpr ⟨hp, hpre⟩, rfl⟩
    rw [hnil] at this
    cases this

theorem updateTags_payload_witness :
    ([("a", some "1"), ("aws:x", some "2")] : KeyValueTags) ≠ [] ∧
      ∃ payload, (updateTags ⟨fun _ => none⟩ "arn" [("b", some "0")]
          [("a", some "1"), ("aws:x", some "2")]).1 =
          [{ ResourceArn := some "arn", Tags := some payload }] ∧
        payload = [{ Key := some "a", Value := some "1" }] :=
  ⟨by decide,
    (updateTags_payload ⟨fun _ => none⟩ "arn" [("b", some "0")]
      [("a", some "1"), ("aws:x", some "2")] (by decide)).imp
      (fun _ h => ⟨h.1, h.2.1.trans (by decide)⟩)⟩

/-- C7, as stated, fails: for the non-empty set A = {a: "1"}, `updateTags` with
old = new = A issues one remote call. -/
theorem updateTags_identical_counterexample :
    (updateTags ⟨fun _ => none⟩ "arn" [("a", some "1")] [("a", some "1")]).1 =
      [{ ResourceArn := some "arn", Tags := some [{ Key := some "a", Value := some "1" }] }] := by
  decide

/-- C7, amended: `updateTags` with old = new = A issues no remote call when A
is empty.  When A is non-empty it issues exactly one call, the request whose
tag payload holds one record for every entry of A whose key does not start
with `aws:` and nothing else. -/
theorem updateTags_identical (conn : Inspector) (identifier : String) (A : KeyValueTags) :
    (updateTags conn identifier A A).1 =
        (if A = [] then []
         else [{ ResourceArn := some identifier, Tags := some (Tags A.IgnoreAWS) }]) ∧
      Tags A.IgnoreAWS = (A.filter (fun p => !(HasPrefix p.1 AwsTagKeyPrefix))).map
        (fun p => { Key := some p.1, Value := some (p.2.getD "") }) ∧
      (∀ t, t ∈ Tags A.IgnoreAWS ↔ ∃ k v, (k, v) ∈ A ∧ HasPrefix k AwsTagKeyPrefix = false ∧
        t = { Key := some k, Value := some (v.getD "") }) := by
  refine ⟨?_, ?_, ?_⟩
  · by_cases hA : A = []
    · subst hA; simp [updateTags]
    · cases hc : conn.SetTagsForResourceWithContext
          { ResourceArn := some identifier, Tags := some (Tags A.IgnoreAWS) } <;>
        simp [updateTags, hA, hc, List.length_pos]
  · simp [Tags, KeyValueTags.Map, KeyValueTags.IgnoreAWS, List.map_map, Function.comp]
  · intro t
    simp only [mem_inspector_Tags, KeyValueTags.mem_IgnoreAWS]
    constructor
    · rintro ⟨k, v, ⟨h1, h2⟩, rfl⟩; exact ⟨k, v, h1, h2, rfl⟩
    · rintro ⟨k, v, h1, h2, rfl⟩; exact ⟨k, v, ⟨h1, h2⟩, rfl⟩

end inspector

/-! ## The WAF rule delete -/

namespace waf

theorem invoke_attempts (wr : Retryer) (conn : WAF) (d : ResourceData) (s : DeleteState) :
    (resourceRuleDelete.invoke wr conn d s).2.attempts = s.attempts + 1 := by
  unfold resourceRuleDelete.invoke
  split <;> rfl

theorem retryFunc_of_error {wr : Retryer} {conn : WAF} {d : ResourceData} {s : DeleteState}
    {e : Err} (h : (resourceRuleDelete.invoke wr conn d s).1 = some e) :
    resourceRuleDelete.retryFunc wr conn d s =
      (some { Err := e, Retryable := ErrCodeEquals e ErrCodeReferencedItemException },
        (resourceRuleDelete.invoke wr conn d s).2) := by
  unfold resourceRuleDelete.retryFunc
  rcases hi : resourceRuleDelete.invoke wr conn d s with ⟨r, s'⟩
  rw [hi] at h
  simp only at h
  subst h
  by_cases hc : ErrCodeEquals e ErrCodeReferencedItemException = true
  · simp [hc, RetryableError]
  · simp [hc, NonRetryableError]

theorem retryFunc_history (wr : Retryer) (conn : WAF) (d : ResourceData) (s : DeleteState) :
    (resourceRuleDelete.retryFunc wr conn d s).2 = (resourceRuleDelete.invoke wr conn d s).2 := by
  unfold resourceRuleDelete.retryFunc
  split
  · split <;> simp_all
  · simp_all

/-- The retry loop when every attempt meets a referential conflict and an
attempt has already returned: the result is the error of the last attempt. -/
theorem RetryContext_referenced (wr : Retryer) (conn : WAF) (d : ResourceData)
    (h : ∀ s, ∃ e, (resourceRuleDelete.invoke wr conn d s).1 = some e ∧
      ErrCodeEquals e ErrCodeReferencedItemException = true) :
    ∀ (rounds : Nat) (e0 : Err) (s0 : DeleteState),
      (resourceRuleDelete.invoke wr conn d s0).1 = some e0 →
      ∃ e s', RetryContext (resourceRuleDelete.retryFunc wr conn d) rounds (some e0)
            (resourceRuleDelete.invoke wr conn d s0).2 =
          (some (WaitErr.result e), (resourceRuleDelete.invoke wr conn d s').2) ∧
        (resourceRuleDelete.invoke wr conn d s').1 = some e ∧
        (resourceRuleDelete.invoke wr conn d s').2.attempts = s0.attempts + 1 + rounds := by
  intro rounds
  induction rounds with
  | zero =>
    intro e0 s0 h0
    exact ⟨e0, s0, rfl, h0, by rw [invoke_attempts]⟩
  | succ n ih =>
    intro e0 s0 h0
    obtain ⟨e1, h1, hc1⟩ := h (resourceRuleDelete.invoke wr conn d s0).2
    obtain ⟨e, s', hr, he, ha⟩ := ih e1 _ h1
    refine ⟨e, s', ?_, he, ?_⟩
    · rw [RetryContext, retryFunc_of_error h1]
      simp only [hc1, if_true]
      exact hr
    · rw [ha, invoke_attempts]; omega

/-- C9, as stated, fails: with two attempts returning before the deadline and
every attempt failing with `WAFReferencedItemException`, the delete is
attempted twice in the retry loop and not once more after it. -/
theorem resourceRuleDelete_referenced_counterexample :
    resourceRuleDelete.delete (NewRetryer 3) 2 exampleReferenced { Id := "r", predicates := [] }
        { history := [], attempts := 0 } =
      { err := some (WaitErr.result (Err.aws ErrCodeReferencedItemException "in use")),
        finalAttempt := false,
        state :=
          { history := [Call.GetChangeToken,
              Call.DeleteRule { ChangeToken := some "t", RuleId := some "r" },
              Call.GetChangeToken,
              Call.DeleteRule { ChangeToken := some "t", RuleId := some "r" }],
            attempts := 2 } } := by
  decide

/-- C9, amended: if every delete attempt fails with the referential-conflict
error and `rounds` attempts return before the deadline, then for `rounds` of
one or more the delete is attempted exactly `rounds` times, all in the retry
loop, and not once more after it.  For `rounds` zero the first attempt is
still in flight when the loop ends in a timeout, and the delete is then
attempted once more: two attempts are made.  In both cases the final error is
the referential-conflict error of the last attempt made, not a timeout
error. -/
theorem resourceRuleDelete_referenced (NewRetryer : WAF → Retryer) (rounds : Nat) (conn : WAF)
    (d : ResourceData) (s : DeleteState)
    (h : ∀ s', ∃ e, (resourceRuleDelete.invoke (NewRetryer conn) conn d s').1 = some e ∧
      ErrCodeEquals e ErrCodeReferencedItemException = true) :
    (resourceRuleDelete.delete NewRetryer rounds conn d s).finalAttempt = decide (rounds = 0) ∧
      (resourceRuleDelete.delete NewRetryer rounds conn d s).state.attempts =
        s.attempts + rounds + (if rounds = 0 then 2 else 0) ∧
      ∃ e s', (resourceRuleDelete.delete NewRetryer rounds conn d s).err = some (WaitErr.result e) ∧
        ErrCodeEquals e ErrCodeReferencedItemException = true ∧
        resourceRuleDelete.invoke (NewRetryer conn) conn d s' =
          (some e, (resourceRuleDelete.delete NewRetryer rounds conn d s).state) ∧
        TimedOut (resourceRuleDelete.delete NewRetryer rounds conn d s).err = false := by
  cases rounds with
  | zero =>
    obtain ⟨e, he, hc⟩ := h (resourceRuleDelete.invoke (NewRetryer conn) conn d s).2
    have hd : resourceRuleDelete.delete NewRetryer 0 conn d s =
        { err := some (WaitErr.result e), finalAttempt := true,
          state := (resourceRuleDelete.invoke (NewRetryer conn) conn d
            (resourceRuleDelete.invoke (NewRetryer conn) conn d s).2).2 } := by
      simp [resourceRuleDelete.delete, RetryContext, TimedOut, retryFunc_history, he]
    rw [hd]
    refine ⟨by simp, by simp [invoke_attempts], e,
      (resourceRuleDelete.invoke (NewRetryer conn) conn d s).2, rfl, hc, ?_, rfl⟩
    exact Prod.ext he rfl
  | succ n =>
    obtain ⟨e1, h1, hc1⟩ := h s
    obtain ⟨e, s', hr, he, ha⟩ := RetryContext_referenced (NewRetryer conn) conn d h n e1 s h1
    have hd : resourceRuleDelete.delete NewRetryer (n + 1) conn d s =
        { err := some (WaitErr.result e), finalAttempt := false,
          state := (resourceRuleDelete.invoke (NewRetryer conn) conn d s').2 } := by
      simp [resourceRuleDelete.delete, RetryContext, retryFunc_of_error h1, hc1, hr, TimedOut]
    rw [hd]
    obtain ⟨e', he', hc'⟩ := h s'
    have : e' = e := by rw [he] at he'; exact (Option.some.inj he').symm
    subst this
    refine ⟨by simp, by simp [ha]; omega, e', s', rfl, hc', ?_, rfl⟩
    exact Prod.ext he rfl

theorem resourceRuleDelete_referenced_witness :
    (∀ s', ∃ e, (resourceRuleDelete.invoke (NewRetryer 3 exampleReferenced) exampleReferenced
          { Id := "r", predicates := [] } s').1 = some e ∧
        ErrCodeEquals e ErrCodeReferencedItemException = true) ∧
      (resourceRuleDelete.delete (NewRetryer 3) 5 exampleReferenced { Id := "r", predicates := [] }
        { history := [], attempts := 0 }).state.attempts = 5 ∧
      (resourceRuleDelete.delete (NewRetryer 3) 0 exampleReferenced { Id := "r", predicates := [] }
        { history := [], attempts := 0 }).state.attempts = 2 :=
  ⟨fun _ => ⟨_, rfl, rfl⟩,
    (resourceRuleDelete_referenced (NewRetryer 3) 5 exampleReferenced { Id := "r", predicates := [] }
      { history := [], attempts := 0 } (fun _ => ⟨_, rfl, rfl⟩)).2.1,
    (resourceRuleDelete_referenced (NewRetryer 3) 0 exampleReferenced { Id := "r", predicates := [] }
      { history := [], attempts := 0 } (fun _ => ⟨_, rfl, rfl⟩)).2.1⟩

/-- C11: the rule `r` no longer exists remotely.  With no predicates in state
the delete is attempted, answers with the not-found error, and
`resourceRuleDelete` returns no diagnostic.  With a predicate in state the
removal of the predicates answers with the same not-found error, and
`resourceRuleDelete` returns the diagnostic "updating WAF Rule (r)
predicates: ..." without attempting the delete. -/
theorem resourceRuleDelete_missing :
    resourceRuleDelete (NewRetryer 3) 5 exampleMissing { Id := "r", predicates := [] } =
        ([],
          some { err := some (WaitErr.result (Err.aws ErrCodeNonexistentItemException "gone")),
                 finalAttempt := false,
                 state :=
                   { history := [Call.GetChangeToken,
                       Call.DeleteRule { ChangeToken := some "t", RuleId := some "r" }],
                     attempts := 1 } }) ∧
      resourceRuleDelete (NewRetryer 3) 5 exampleMissing
          { Id := "r", predicates := [{ negated := false, data_id := "s", type := "IPMatch" }] } =
        (["updating WAF Rule (r) predicates: WAFNonexistentItemException: gone"], none) := by
  decide

theorem handedFrom_append (tok : List Call → Option String) :
    ∀ (a b h : List Call), handedFrom tok h a → handedFrom tok (h ++ a) b →
      handedFrom tok h (a ++ b) := by
  intro a
  induction a with
  | nil => intro b h _ hb; simpa using hb
  | cons c rest ih =>
    intro b h ha hb
    refine ⟨ha.1, ih b (h ++ [c]) ha.2 ?_⟩
    simpa using hb

theorem invoke_handing (tok : List Call → Option String) (conn : WAF) (d : ResourceData)
    (s : DeleteState) :
    (resourceRuleDelete.invoke (Retryer.handing tok) conn d s).2.history =
      s.history ++ [Call.DeleteRule { ChangeToken := tok s.history, RuleId := some d.Id }] := by
  simp only [resourceRuleDelete.invoke, Retryer.handing, resourceRuleDelete.attempt]
  split <;> simp_all

theorem RetryContext_handing (tok : List Call → Option String) (conn : WAF) (d : ResourceData) :
    ∀ (rounds : Nat) (resultErr : Option Err) (s : DeleteState),
      ∃ added, (RetryContext (resourceRuleDelete.retryFunc (Retryer.handing tok) conn d)
          rounds resultErr s).2.history = s.history ++ added ∧
        handedFrom tok s.history added := by
  intro rounds
  induction rounds with
  | zero =>
    intro resultErr s
    cases resultErr with
    | some err => exact ⟨[], by simp [RetryContext], trivial⟩
    | none =>
      refine ⟨[Call.DeleteRule { ChangeToken := tok s.history, RuleId := some d.Id }], ?_,
        ⟨rfl, trivial⟩⟩
      simp [RetryContext, retryFunc_history, invoke_handing]
  | succ n ih =>
    intro resultErr s
    have hstep := invoke_handing tok conn d s
    rw [← retryFunc_history] at hstep
    have h1 : handedFrom tok s.history
        [Call.DeleteRule { ChangeToken := tok s.history, RuleId := some d.Id }] :=
      ⟨rfl, trivial⟩
    rcases hf : resourceRuleDelete.retryFunc (Retryer.handing tok) conn d s with ⟨r, s'⟩
    rw [hf] at hstep
    simp only at hstep
    cases r with
    | none => exact ⟨_, by simpa [RetryContext, hf] using hstep, h1⟩
    | some rerr =>
      by_cases hr : rerr.Retryable = true
      · obtain ⟨added, hadd, hh⟩ := ih (some rerr.Err) s'
        refine ⟨_ ++ added, ?_, handedFrom_append tok _ added _ h1 (by rw [← hstep]; exact hh)⟩
        simp [RetryContext, hf, hr, hadd, hstep]
      · exact ⟨_, by simpa [RetryContext, hf, hr] using hstep, h1⟩



theorem delete_handing (tok : List Call → Option String) (rounds : Nat) (conn : WAF)
    (d : ResourceData) (s : DeleteState) :
    ∃ added, (resourceRuleDelete.delete (fun _ => Retryer.handing tok) rounds conn d s).state.history
        = s.history ++ added ∧ handedFrom tok s.history added := by
  obtain ⟨added, hadd, hh⟩ := RetryContext_handing tok conn d rounds none s
  rcases hr : RetryContext (resourceRuleDelete.retryFunc (Retryer.handing tok) conn d)
    rounds none s with ⟨err, s'⟩
  rw [hr] at hadd
  simp only at hadd
  by_cases ht : TimedOut err = true
  · have hi := invoke_handing tok conn d s'
    rcases hv : resourceRuleDelete.invoke (Retryer.handing tok) conn d s' with ⟨err', s''⟩
    rw [hv] at hi
    simp only at hi
    refine ⟨added ++ [Call.DeleteRule { ChangeToken := tok s'.history, RuleId := some d.Id }], ?_,
      handedFrom_append tok _ _ _ hh ⟨by rw [hadd]; rfl, trivial⟩⟩
    simp [resourceRuleDelete.delete, hr, ht, hv, hi, hadd]
  · exact ⟨added, by simp [resourceRuleDelete.delete, hr, ht, hadd], hh⟩

theorem update_handing (tok : List Call → Option String) (id : String)
    (oldP newP : List Predicate) (conn : WAF) (h : List Call) :
    (updateRuleResource (fun _ => Retryer.handing tok) id oldP newP conn h).2 =
      h ++ [Call.UpdateRule { ChangeToken := tok h, RuleId := some id, Updates := (oldP, newP) }] := by
  simp only [updateRuleResource, Retryer.handing, updateRuleResource.attempt]
  split <;> simp_all

theorem create_handing (tok : List Call → Option String) (conn : WAF) (name metric_name : String)
    (tags : KeyValueTags) (predicates : List Predicate) :
    handedFrom tok []
      (resourceRuleCreate (fun _ => Retryer.handing tok) conn name metric_name tags predicates).2 := by
  have hcreate : (Retryer.handing tok).RetryWithToken
      (resourceRuleCreate.attempt conn name metric_name tags) [] =
      resourceRuleCreate.attempt conn name metric_name tags (tok []) [] := rfl
  rcases hat : resourceRuleCreate.attempt conn name metric_name tags (tok []) [] with ⟨r, h⟩
  have hh : h = [Call.CreateRule
      { ChangeToken := tok [], MetricName := some metric_name, Name := some name,
        Tags := if tags.length > 0 then some (Tags tags.IgnoreAWS) else none }] := by
    have := congrArg Prod.snd hat
    simpa [resourceRuleCreate.attempt] using this.symm
  have h1 : handedFrom tok [] h := by rw [hh]; exact ⟨rfl, trivial⟩
  simp only [resourceRuleCreate, hcreate, hat]
  cases r with
  | error err => exact h1
  | ok RuleId =>
    simp only
    by_cases hp : predicates.length > 0
    · have hu := update_handing tok (StringValue RuleId) [] predicates conn h
      rcases hv : updateRuleResource (fun _ => Retryer.handing tok) (StringValue RuleId) []
        predicates conn h with ⟨r', h'⟩
      rw [hv] at hu
      simp only at hu
      have h2 : handedFrom tok [] h' := by
        rw [hu]
        exact handedFrom_append tok _ _ _ h1 ⟨by simp [Call.ChangeToken], trivial⟩
      simp only [hp, if_true, hv]
      cases r' <;> exact h2
    · simp only [hp, if_false]
      exact h1

theorem invoke_refusing (e : Err) (conn : WAF) (d : ResourceData) (s : DeleteState) :
    (resourceRuleDelete.invoke (Retryer.refusing e) conn d s).2.history = s.history := by
  simp [resourceRuleDelete.invoke, Retryer.refusing]

theorem RetryContext_refusing (e : Err) (conn : WAF) (d : ResourceData) :
    ∀ (rounds : Nat) (resultErr : Option Err) (s : DeleteState),
      (RetryContext (resourceRuleDelete.retryFunc (Retryer.refusing e) conn d)
        rounds resultErr s).2.history = s.history := by
  intro rounds
  induction rounds with
  | zero =>
    intro resultErr s
    cases resultErr <;> simp [RetryContext, retryFunc_history, invoke_refusing]
  | succ n ih =>
    intro resultErr s
    have hstep := invoke_refusing e conn d s
    rw [← retryFunc_history] at hstep
    rcases hf : resourceRuleDelete.retryFunc (Retryer.refusing e) conn d s with ⟨r, s'⟩
    rw [hf] at hstep
    simp only at hstep
    cases r with
    | none => simpa [RetryContext, hf] using hstep
    | some rerr =>
      by_cases hr : rerr.Retryable = true
      · simp [RetryContext, hf, hr, ih, hstep]
      · simpa [RetryContext, hf, hr] using hstep

theorem delete_refusing (e : Err) (rounds : Nat) (conn : WAF) (d : ResourceData)
    (s : DeleteState) :
    (resourceRuleDelete.delete (fun _ => Retryer.refusing e) rounds conn d s).state.history
      = s.history := by
  have h1 := RetryContext_refusing e conn d rounds none s
  rcases hr : RetryContext (resourceRuleDelete.retryFunc (Retryer.refusing e) conn d)
    rounds none s with ⟨err, s'⟩
  rw [hr] at h1
  simp only at h1
  by_cases ht : TimedOut err = true
  · have hi := invoke_refusing e conn d s'
    rcases hv : resourceRuleDelete.invoke (Retryer.refusing e) conn d s' with ⟨err', s''⟩
    rw [hv] at hi
    simp only at hi
    simp [resourceRuleDelete.delete, hr, ht, hv, hi, h1]
  · simp [resourceRuleDelete.delete, hr, ht, h1]

/-- C12: the three attempt functions (create, update of predicates, delete)
each issue exactly one call, the mutating call whose request carries the token
the function was handed, whatever calls were issued before.  Run with a
retryer that hands the token `tok h` after the calls `h`, `resourceRuleCreate`,
`updateRuleResource` and the delete part of `resourceRuleDelete` issue only
mutating calls that carry the token handed at that point; when no attempt has
returned by the deadline, the delete in flight and the delete made after the
timeout are two calls, each with the token handed to it.  Run with a retryer
that never runs the attempt function, they issue no call at all. -/
theorem attempts_carry_token (conn : WAF) :
    (∀ name metric_name tags token h,
      (resourceRuleCreate.attempt conn name metric_name tags token h).2 =
        h ++ [Call.CreateRule
          { ChangeToken := token, MetricName := some metric_name, Name := some name,
            Tags := if tags.length > 0 then some (Tags tags.IgnoreAWS) else none }]) ∧
    (∀ id oldP newP token h,
      (updateRuleResource.attempt conn id oldP newP token h).2 =
        h ++ [Call.UpdateRule
          { ChangeToken := token, RuleId := some id, Updates := (oldP, newP) }]) ∧
    (∀ (d : ResourceData) token h,
      (resourceRuleDelete.attempt conn d token h).2 =
        h ++ [Call.DeleteRule { ChangeToken := token, RuleId := some d.Id }]) ∧
    (∀ tok name metric_name tags predicates,
      handedFrom tok []
        (resourceRuleCreate (fun _ => Retryer.handing tok) conn name metric_name tags
          predicates).2) ∧
    (∀ tok id oldP newP h,
      (updateRuleResource (fun _ => Retryer.handing tok) id oldP newP conn h).2 =
        h ++ [Call.UpdateRule
          { ChangeToken := tok h, RuleId := some id, Updates := (oldP, newP) }]) ∧
    (∀ tok rounds d s, ∃ added,
      (resourceRuleDelete.delete (fun _ => Retryer.handing tok) rounds conn d s).state.history =
        s.history ++ added ∧ handedFrom tok s.history added) ∧
    (∀ tok d s,
      (resourceRuleDelete.delete (fun _ => Retryer.handing tok) 0 conn d s).finalAttempt = true ∧
      (resourceRuleDelete.delete (fun _ => Retryer.handing tok) 0 conn d s).state.history =
        s.history ++
          [Call.DeleteRule { ChangeToken := tok s.history, RuleId := some d.Id },
            Call.DeleteRule
              { ChangeToken := tok (s.history ++
                  [Call.DeleteRule { ChangeToken := tok s.history, RuleId := some d.Id }]),
                RuleId := some d.Id }]) ∧
    (∀ e name metric_name tags predicates,
      (resourceRuleCreate (fun _ => Retryer.refusing e) conn name metric_name tags
        predicates).2 = []) ∧
    (∀ e id oldP newP h,
      (updateRuleResource (fun _ => Retryer.refusing e) id oldP newP conn h).2 = h) ∧
    (∀ e rounds d s,
      (resourceRuleDelete.delete (fun _ => Retryer.refusing e) rounds conn d s).state.history =
        s.history) := by
  refine ⟨fun _ _ _ _ _ => rfl, fun _ _ _ _ _ => rfl, fun _ _ _ => rfl,
    fun tok name metric_name tags predicates =>
      create_handing tok conn name metric_name tags predicates,
    fun tok id oldP newP h => update_handing tok id oldP newP conn h,
    fun tok rounds d s => delete_handing tok rounds conn d s, ?_,
    ?_, ?_, fun e rounds d s => delete_refusing e rounds conn d s⟩
  · intro tok d s
    simp [resourceRuleDelete.delete, RetryContext, TimedOut, retryFunc_history, invoke_handing]
  · intro e name metric_name tags predicates
    simp [resourceRuleCreate, Retryer.refusing]
  · intro e id oldP newP h
    simp [updateRuleResource, Retryer.refusing]

end waf

/-! ## The LF-Tag resource -/

namespace lakeformation

theorem splitChars_ne_nil (sep : Char) (l : List Char) : splitChars sep l ≠ [] := by
  induction l with
  | nil => simp [splitChars]
  | cons c cs ih =>
    by_cases h : c = sep
    · simp [splitChars, h]
    · rcases hs : splitChars sep cs with _ | ⟨piece, pieces⟩
      · exact absurd hs ih
      · simp [splitChars, h, hs]

theorem length_splitChars (sep : Char) (l : List Char) :
    (splitChars sep l).length = l.count sep + 1 := by
  induction l with
  | nil => simp [splitChars]
  | cons c cs ih =>
    by_cases h : c = sep
    · subst h; simp [splitChars, ih]
    · rcases hs : splitChars sep cs with _ | ⟨piece, pieces⟩
      · exact absurd hs (splitChars_ne_nil sep cs)
      · rw [hs] at ih
        have hne : (c == sep) = false := by simpa using h
        simp [splitChars, h, hs, List.count_cons, hne] at ih ⊢
        omega

theorem splitChars_of_not_mem (sep : Char) (l : List Char) (h : sep ∉ l) :
    splitChars sep l = [l] := by
  induction l with
  | nil => rfl
  | cons c cs ih =>
    have hc : c ≠ sep := fun e => h (by simp [e])
    have hcs : sep ∉ cs := fun m => h (List.mem_cons_of_mem _ m)
    simp [splitChars, hc, ih hcs]

theorem splitChars_append (sep : Char) (a b : List Char) (h : sep ∉ a) :
    splitChars sep (a ++ sep :: b) = a :: splitChars sep b := by
  induction a with
  | nil => simp [splitChars]
  | cons c cs ih =>
    have hc : c ≠ sep := fun e => h (by simp [e])
    have hcs : sep ∉ cs := fun m => h (List.mem_cons_of_mem _ m)
    simp [splitChars, hc, ih hcs]

theorem ReadLFTagID_ok_iff (id : String) :
    (ReadLFTagID id).2.2 = none ↔ id.data.count ':' = 1 := by
  have hl := length_splitChars ':' id.data
  unfold ReadLFTagID Split
  simp only [List.length_map, ne_eq]
  by_cases h : (splitChars ':' id.data).length = 2
  · simp only [h, not_true_eq_false, if_false]
    constructor
    · intro _; omega
    · intro _; trivial
  · simp only [h, not_false_eq_true, if_true]
    constructor
    · intro hc; cases hc
    · intro hc; omega

theorem ReadLFTagID_error (id : String) (h : (ReadLFTagID id).2.2 ≠ none) :
    ReadLFTagID id = ("", "", some (Error.unexpectedFormat id)) := by
  unfold ReadLFTagID at h ⊢
  by_cases hl : (Split id ':').length = 2
  · simp [hl] at h
  · simp [hl]

theorem data_id (catalogID tagKey : String) :
    (resourceLFTagCreate.id catalogID tagKey).data = catalogID.data ++ ':' :: tagKey.data := by
  simp [resourceLFTagCreate.id, String.data_append]

theorem ReadLFTagID_id_of_clean (catalogID tagKey : String)
    (hc : ':' ∉ catalogID.data) (hk : ':' ∉ tagKey.data) :
    ReadLFTagID (resourceLFTagCreate.id catalogID tagKey) = (catalogID, tagKey, none) := by
  have hs : Split (resourceLFTagCreate.id catalogID tagKey) ':' = [catalogID, tagKey] := by
    simp [Split, data_id, splitChars_append _ _ _ hc, splitChars_of_not_mem _ _ hk]
  simp [ReadLFTagID, hs]



/-- C13: `ReadLFTagID` applied to the ID that `resourceLFTagCreate` builds
from `catalogID` and `tagKey` returns `(catalogID, tagKey)` without error
exactly when neither of the two contains the character `:`; in every other
case it returns two empty strings and an error.  For any ID, `ReadLFTagID`
returns without error exactly when the ID contains exactly one `:`, and
returns two empty strings with its error otherwise.  The ID that
`resourceLFTagCreate` sets is the catalog ID (the configured one, or the
account ID when none is configured), a `:` and the key. -/
theorem ReadLFTagID_roundtrip (catalogID tagKey : String) :
    (ReadLFTagID (resourceLFTagCreate.id catalogID tagKey) = (catalogID, tagKey, none) ↔
        ':' ∉ catalogID.data ∧ ':' ∉ tagKey.data) ∧
      (¬(':' ∉ catalogID.data ∧ ':' ∉ tagKey.data) →
        ReadLFTagID (resourceLFTagCreate.id catalogID tagKey) =
          ("", "", some (Error.unexpectedFormat (resourceLFTagCreate.id catalogID tagKey)))) ∧
      (∀ id, (ReadLFTagID id).2.2 = none ↔ id.data.count ':' = 1) ∧
      (∀ id, (ReadLFTagID id).2.2 ≠ none →
        ReadLFTagID id = ("", "", some (Error.unexpectedFormat id))) ∧
      resourceLFTagCreate.id catalogID tagKey = catalogID ++ ":" ++ tagKey ∧
      (∀ conn AccountID catalog_id values Id,
        (resourceLFTagCreate conn AccountID catalog_id tagKey values).1 = some Id →
          Id = resourceLFTagCreate.id (if catalog_id ≠ "" then catalog_id else AccountID)
            tagKey) := by
  have hiff : ReadLFTagID (resourceLFTagCreate.id catalogID tagKey) = (catalogID, tagKey, none) ↔
      ':' ∉ catalogID.data ∧ ':' ∉ tagKey.data := by
    constructor
    · intro h
      have h1 : (ReadLFTagID (resourceLFTagCreate.id catalogID tagKey)).2.2 = none := by rw [h]
      rw [ReadLFTagID_ok_iff, data_id] at h1
      simp only [List.count_append, List.count_cons_self] at h1
      have hc : catalogID.data.count ':' = 0 := by omega
      have hk : tagKey.data.count ':' = 0 := by omega
      exact ⟨List.count_eq_zero.mp hc, List.count_eq_zero.mp hk⟩
    · rintro ⟨hc, hk⟩
      exact ReadLFTagID_id_of_clean catalogID tagKey hc hk
  refine ⟨hiff, ?_, ReadLFTagID_ok_iff, ReadLFTagID_error, rfl, ?_⟩
  · intro hn
    apply ReadLFTagID_error
    intro h1
    apply hn
    rw [ReadLFTagID_ok_iff, data_id] at h1
    simp only [List.count_append, List.count_cons_self] at h1
    have hc : catalogID.data.count ':' = 0 := by omega
    have hk : tagKey.data.count ':' = 0 := by omega
    exact ⟨List.count_eq_zero.mp hc, List.count_eq_zero.mp hk⟩
  · intro conn AccountID catalog_id values Id h
    unfold resourceLFTagCreate at h
    simp only at h
    split at h
    · simp at h
    · simp only [Option.some.injEq] at h
      exact h.symm

end lakeformation

end TfAws
